import Mathlib

set_option autoImplicit false
set_option maxRecDepth 8000

/-!
Verification of the Minesweeper Model/Controller core of `red.py`.

The embedding strategy:

* a cell holds either the string `'m'` (a mine) or an adjacent-mine count
  (`Cell`);
* the H×W list-of-rows grid is modelled as a total function on coordinates
  (`Grid`); the Python list-indexing rules (negative indices wrap, other
  out-of-range indices raise `IndexError`) are captured by `py_index` and
  `Model.get_cell_value`, which return `none` where Python raises;
* `random.sample` is modelled by passing the drawn list `chosen` as an
  explicit parameter; theorems assume exactly what `sample` guarantees
  (distinct elements of the population);
* the two views are external collaborators: every call the controller makes
  into the view is recorded as an `Event` appended to a notification trace;
* the unbounded Python recursion of `Controller.reveal_zeroes` is given an
  explicit fuel parameter, and fuel `width * height + 1` is proven sufficient
  (`reveal_zeroes_isSome_of_fuel`), mirroring the fact that the Python
  recursion always terminates because `revealed_zeroes` only grows.
-/

abbrev Coord := Int × Int

/-- Content of one grid cell: the string `'m'`, or a numeric count. -/
inductive Cell where
  | mine : Cell
  | count : Nat → Cell
deriving DecidableEq

/-- `Model.game_state`: Python `None`, `"win"`, or `"loss"`. -/
inductive GameState where
  | playing : GameState
  | win : GameState
  | loss : GameState
deriving DecidableEq

/-- `get_adjacent`: the eight Chebyshev-distance-1 neighbours, unclipped.
The source builds a set literal of eight tuples; the eight tuples are always
pairwise distinct (`get_adjacent_nodup`), so a list in the written order is a
faithful model. -/
def get_adjacent (index : Coord) : List Coord :=
  [(index.1 - 1, index.2 - 1), (index.1, index.2 - 1), (index.1 + 1, index.2 - 1),
   (index.1 - 1, index.2),                             (index.1 + 1, index.2),
   (index.1 - 1, index.2 + 1), (index.1, index.2 + 1), (index.1 + 1, index.2 + 1)]

/-- The grid, as a total function on coordinates.  Coordinates outside the
rectangle keep their `create_grid` value and are only reachable through the
Python indexing rules of `Model.get_cell_value`. -/
abbrev Grid := Coord → Cell

/-- `Model.create_grid`: a (width by height) grid of elements with value 0. -/
def create_grid : Grid := fun _ => Cell.count 0

/-- `Model.add_mines`: sets `grid[y][x] = 'm'` for every sampled coordinate. -/
def add_mines (g : Grid) (mines : List Coord) : Grid :=
  fun c => if c ∈ mines then Cell.mine else g c

/-- `list(product(range(width), range(height)))`: the population sampled by
`Model.add_mines` (x outer, y inner). -/
def mine_population (width height : Nat) : List Coord :=
  (List.range width).flatMap fun (x : Nat) =>
    (List.range height).map fun (y : Nat) => ((x : Int), (y : Int))

/-- `Model.grid_coords`: `[(x, y) for y in range(height) for x in range(width)]`. -/
def grid_coords (width height : Nat) : List Coord :=
  (List.range height).flatMap fun (y : Nat) =>
    (List.range width).map fun (x : Nat) => ((x : Int), (y : Int))

/-- Membership of a coordinate in the W×H rectangle. -/
abbrev in_grid (width height : Nat) (c : Coord) : Prop :=
  0 ≤ c.1 ∧ c.1 < (width : Int) ∧ 0 ≤ c.2 ∧ c.2 < (height : Int)

/-- `is_mine` inside `Model.adjacent_mine_count`: the nonnegativity guard
together with the `except IndexError` handler makes it a bounds-checked mine
test on the current grid. -/
def is_mine (width height : Nat) (g : Grid) (coords : Coord) : Bool :=
  decide (in_grid width height coords) && (g coords == Cell.mine)

/-- `reduce(add, map(is_mine, get_adjacent(position)))`: a sum of booleans
over the eight (distinct) neighbours, i.e. a count. -/
def mine_count_at (width height : Nat) (g : Grid) (position : Coord) : Nat :=
  (get_adjacent position).countP (is_mine width height g)

/-- `Model.adjacent_mine_count`: for every position of the grid, in
`grid_coords` order, overwrite each non-mine cell with the number of its
adjacent mines, reading the grid as mutated so far. -/
def adjacent_mine_count (width height : Nat) (g : Grid) : Grid :=
  (grid_coords width height).foldl
    (fun g' position =>
      if g' position ≠ Cell.mine then
        fun c => if c = position then Cell.count (mine_count_at width height g' position) else g' c
      else g')
    g

structure Model where
  width : Nat
  height : Nat
  num_mines : Nat
  grid : Grid
  cells_revealed : Finset Coord
  cells_flagged : Finset Coord
  revealed_zeroes : Finset Coord
  game_state : GameState

/-- `random.sample(population, k)`: the drawn list is supplied as the
parameter `chosen` (the randomness is external); Python raises `ValueError`
exactly when `k` exceeds the population size. -/
def sample (population : List Coord) (k : Nat) (chosen : List Coord) : Option (List Coord) :=
  if k ≤ population.length then some chosen else none

/-- `Model.__init__`: create the zero grid, sample the mines, add them, then
compute the adjacent-mine counts; the bookkeeping sets start empty and
`game_state` starts as `None`. -/
def Model.init (width height num_mines : Nat) (chosen : List Coord) : Option Model :=
  match sample (mine_population width height) num_mines chosen with
  | none => none
  | some mines =>
      some { width := width
             height := height
             num_mines := num_mines
             grid := adjacent_mine_count width height (add_mines create_grid mines)
             cells_revealed := ∅
             cells_flagged := ∅
             revealed_zeroes := ∅
             game_state := GameState.playing }

/-- Python list indexing on a list of length `len`: indices in `[0, len)` are
direct, indices in `[-len, 0)` wrap to `i + len`, anything else raises
`IndexError` (modelled as `none`). -/
def py_index (len : Nat) (i : Int) : Option Int :=
  if 0 ≤ i ∧ i < (len : Int) then some i
  else if -(len : Int) ≤ i ∧ i < 0 then some (i + (len : Int))
  else none

/-- `Model.get_cell_value`: `self.grid[y][x]` on the H×W list of rows,
with Python indexing semantics in each dimension (row first). -/
def Model.get_cell_value (m : Model) (index : Coord) : Option Cell :=
  match py_index m.height index.2 with
  | none => none
  | some y =>
    match py_index m.width index.1 with
    | none => none
    | some x => some (m.grid (x, y))

/-- One notification from the controller to its view. -/
inductive Event where
  | revealCell (index : Coord) (value : Cell)
  | flagCell (index : Coord)
  | unflagCell (index : Coord)
  | updateMinesLeft (mines : Int)
  | displayLoss
  | displayWin
deriving DecidableEq

/-- Controller state: the controller's own copies of the configuration, the
model, and the trace of notifications sent to the view so far. -/
structure Ctrl where
  width : Nat
  height : Nat
  num_mines : Nat
  model : Model
  trace : List Event

/-- `Controller.reveal_cell`: skip flagged cells, otherwise add to
`cells_revealed` and notify the view. -/
def Controller.reveal_cell (s : Ctrl) (index : Coord) (value : Cell) : Ctrl :=
  if index ∈ s.model.cells_flagged then s
  else { s with
         model := { s.model with cells_revealed := insert index s.model.cells_revealed }
         trace := s.trace ++ [Event.revealCell index value] }

/-- The inline bounds test `0 <= coords[0] <= self.width - 1 and
0 <= coords[1] <= self.height - 1` used by `Controller.reveal_adjacent` and
`Controller.reveal_zeroes`. -/
abbrev inb (width height : Nat) (coords : Coord) : Prop :=
  0 ≤ coords.1 ∧ coords.1 ≤ (width : Int) - 1 ∧ 0 ≤ coords.2 ∧ coords.2 ≤ (height : Int) - 1

abbrev Controller.in_bounds (s : Ctrl) (coords : Coord) : Prop :=
  inb s.width s.height coords

/-- `Controller.reveal_adjacent`: reveal every in-bounds neighbour of `index`
(the `none` branch of the lookup is unreachable: the bounds test precedes it). -/
def Controller.reveal_adjacent_step (t : Ctrl) (coords : Coord) : Ctrl :=
  if Controller.in_bounds t coords then
    match Model.get_cell_value t.model coords with
    | some cell_value => Controller.reveal_cell t coords cell_value
    | none => t
  else t

def Controller.reveal_adjacent (s : Ctrl) (index : Coord) : Ctrl :=
  (get_adjacent index).foldl Controller.reveal_adjacent_step s

/-- `self.model.revealed_zeroes.add(coords)`. -/
def Controller.mark_zero (s : Ctrl) (coords : Coord) : Ctrl :=
  { s with model := { s.model with revealed_zeroes := insert coords s.model.revealed_zeroes } }

/-- The loop body of `Controller.reveal_zeroes`: for each neighbour, if it is
in bounds, has value 0 and is not yet in `revealed_zeroes`, mark it and
recurse (the recursive call is the parameter `F`); failure (`none`)
propagates. -/
def Controller.zloop_step (F : Ctrl → Coord → Option Ctrl)
    (acc : Option Ctrl) (coords : Coord) : Option Ctrl :=
  acc.bind fun t =>
    if Controller.in_bounds t coords
        ∧ Model.get_cell_value t.model coords = some (Cell.count 0)
        ∧ coords ∉ t.model.revealed_zeroes then
      F (Controller.mark_zero t coords) coords
    else some t

/-- `Controller.reveal_zeroes`, with an explicit fuel for the Python
recursion: if the cell's value is 0, reveal it, reveal its neighbours, then
recurse into each in-bounds neighbour of value 0 not yet in
`revealed_zeroes`, adding it to `revealed_zeroes` first.  `none` models
either exhausted fuel (which never happens with fuel `width * height + 1`,
see `reveal_zeroes_isSome`) or an `IndexError` from the initial lookup. -/
def Controller.reveal_zeroes : Nat → Ctrl → Coord → Option Ctrl
  | 0, _, _ => none
  | fuel + 1, s, index =>
    match Model.get_cell_value s.model index with
    | none => none
    | some val =>
      if val = Cell.count 0 then
        let s1 := Controller.reveal_cell s index val
        let s2 := Controller.reveal_adjacent s1 index
        (get_adjacent index).foldl
          (Controller.zloop_step fun t coords => Controller.reveal_zeroes fuel t coords)
          (some s2)
      else some s

/-- `Controller.win`: set the state to `"win"` and notify. -/
def Controller.win (s : Ctrl) : Ctrl :=
  { s with model := { s.model with game_state := GameState.win }
           trace := s.trace ++ [Event.displayWin] }

/-- The full-board broadcast at the end of `Controller.loss`: for every row
and column, look the cell up in the model and send it to the view (the
`none` branch is unreachable: `(col, row)` is in bounds). -/
def Controller.loss_events (s : Ctrl) : List Event :=
  (List.range s.height).flatMap fun (row : Nat) =>
    (List.range s.width).flatMap fun (col : Nat) =>
      match Model.get_cell_value s.model ((col : Int), (row : Int)) with
      | some cell_value => [Event.revealCell ((col : Int), (row : Int)) cell_value]
      | none => []

/-- `Controller.loss`: set the state to `"loss"`, notify the loss, then
broadcast every cell of the board directly to the view (`self.view.reveal_cell`,
so neither `cells_revealed` nor the flag check is involved). -/
def Controller.loss (s : Ctrl) : Ctrl :=
  let s1 : Ctrl :=
    { s with model := { s.model with game_state := GameState.loss }
             trace := s.trace ++ [Event.displayLoss] }
  { s1 with trace := s1.trace ++ Controller.loss_events s1 }

/-- `cell_value in range(1, 9)`. -/
def in_range_one_eight (cell_value : Cell) : Bool :=
  match cell_value with
  | Cell.count n => decide (1 ≤ n) && decide (n ≤ 8)
  | Cell.mine => false

/-- `Controller.reveal_decision`: look the cell up (an `IndexError`
propagates as `none`), no-op on flagged cells, then branch on the value —
counts 1..8 reveal one cell, a mine while not won loses (the source's
`self.model.grid[y][x] == "m"` is the same lookup that produced
`cell_value`), anything else goes to the flood fill — and finally run the
win check on the mutated model. -/
def Controller.reveal_decision (s : Ctrl) (index : Coord) : Option Ctrl :=
  match Model.get_cell_value s.model index with
  | none => none
  | some cell_value =>
    if index ∈ s.model.cells_flagged then some s
    else
      let after :=
        if in_range_one_eight cell_value then
          some (Controller.reveal_cell s index cell_value)
        else if cell_value = Cell.mine ∧ s.model.game_state ≠ GameState.win then
          some (Controller.loss s)
        else
          Controller.reveal_zeroes (s.width * s.height + 1) s index
      match after with
      | none => none
      | some t =>
        let cells_unrevealed : Int :=
          (s.height : Int) * (s.width : Int) - t.model.cells_revealed.card
        if cells_unrevealed = (s.num_mines : Int) ∧ t.model.game_state ≠ GameState.loss then
          some (Controller.win t)
        else some t

/-- `Controller.update_mines`: emit the remaining-mine count when it is
nonnegative (Python subtraction, hence `Int`). -/
def Controller.update_mines (s : Ctrl) : Ctrl :=
  let mines_left : Int := (s.num_mines : Int) - s.model.cells_flagged.card
  if 0 ≤ mines_left then { s with trace := s.trace ++ [Event.updateMinesLeft mines_left] }
  else s

/-- `Controller.update_flagged_cell`: flag an unrevealed unflagged cell,
unflag an unrevealed flagged cell, do nothing to a revealed cell; always
finish with `update_mines`. -/
def Controller.update_flagged_cell (s : Ctrl) (index : Coord) : Ctrl :=
  let s1 :=
    if index ∉ s.model.cells_revealed ∧ index ∉ s.model.cells_flagged then
      { s with model := { s.model with cells_flagged := insert index s.model.cells_flagged }
               trace := s.trace ++ [Event.flagCell index] }
    else if index ∉ s.model.cells_revealed ∧ index ∈ s.model.cells_flagged then
      { s with model := { s.model with cells_flagged := s.model.cells_flagged.erase index }
               trace := s.trace ++ [Event.unflagCell index] }
    else s
  Controller.update_mines s1

/-- `Controller.__init__` restricted to the engine: construct the model
(view construction and the main loop are out of scope). -/
def Controller.init (width height num_mines : Nat) (chosen : List Coord) : Option Ctrl :=
  match Model.init width height num_mines chosen with
  | none => none
  | some m =>
    some { width := width, height := height, num_mines := num_mines, model := m, trace := [] }

/-- A sequence of user reveal actions, each dispatched to
`Controller.reveal_decision`. -/
def apply_reveals (s : Ctrl) : List Coord → Option Ctrl
  | [] => some s
  | index :: rest =>
    match Controller.reveal_decision s index with
    | none => none
    | some t => apply_reveals t rest

/-! ### Specification-side notions -/

/-- Chebyshev distance exactly 1 (the spec's adjacency notion). -/
abbrev chebyshev_adjacent (a b : Coord) : Prop :=
  max (a.1 - b.1).natAbs (a.2 - b.2).natAbs = 1

/-- The set of in-bounds coordinates of a W×H board. -/
def bounds_finset (width height : Nat) : Finset Coord :=
  (Finset.range width ×ˢ Finset.range height).map
    ⟨fun p => ((p.1 : Int), (p.2 : Int)), by
      intro p q h
      cases p; cases q
      simpa [Prod.ext_iff, Int.natCast_inj] using h⟩

/-- One step between adjacent in-bounds zero cells (target side). -/
def zero_step (m : Model) (a b : Coord) : Prop :=
  b ∈ get_adjacent a ∧ in_grid m.width m.height b ∧ m.grid b = Cell.count 0

/-- The connected region of zero cells reachable from `a` (the spec's
flood-fill region). -/
def zero_reach (m : Model) (a b : Coord) : Prop :=
  Relation.ReflTransGen (zero_step m) a b

/-! ### Basic facts: adjacency, bounds, Python indexing -/

/-- Controller and model agree on the configuration (true for every state
built by `Controller.init` and preserved by every operation). -/
def WF (s : Ctrl) : Prop :=
  s.model.width = s.width ∧ s.model.height = s.height ∧ s.model.num_mines = s.num_mines

theorem mem_range_flatMap_map {α : Type} {n m : Nat} {f : Nat → Nat → α} {c : α} :
    (c ∈ (List.range n).flatMap fun i => (List.range m).map fun j => f i j) ↔
      ∃ i, i < n ∧ ∃ j, j < m ∧ f i j = c := by
  simp only [List.mem_flatMap, List.mem_range, List.mem_map]

theorem length_range_flatMap_map {α : Type} (n m : Nat) (f : Nat → Nat → α) :
    ((List.range n).flatMap fun i => (List.range m).map fun j => f i j).length = n * m := by
  induction n with
  | zero => simp
  | succ k ih =>
    rw [List.range_succ, List.flatMap_append, List.length_append, ih]
    simp [Nat.succ_mul]

theorem get_adjacent_mem_iff (a b : Coord) :
    b ∈ get_adjacent a ↔ chebyshev_adjacent a b := by
  rcases a with ⟨x, y⟩
  rcases b with ⟨u, v⟩
  simp only [get_adjacent, chebyshev_adjacent, List.mem_cons, List.not_mem_nil, or_false,
    Prod.mk.injEq]
  omega

theorem get_adjacent_nodup (a : Coord) : (get_adjacent a).Nodup := by
  rcases a with ⟨x, y⟩
  simp only [get_adjacent, List.nodup_cons, List.mem_cons, List.not_mem_nil, or_false,
    List.nodup_nil, Prod.mk.injEq, and_true, true_and, not_or]
  refine ⟨?_, ?_, ?_, ?_, ?_, ?_, ?_, not_false⟩ <;> omega

theorem get_adjacent_length (a : Coord) : (get_adjacent a).length = 8 := rfl

theorem inb_iff_in_grid {W H : Nat} {c : Coord} : inb W H c ↔ in_grid W H c := by
  simp only [inb, in_grid]
  omega

theorem bounds_finset_mem {W H : Nat} {c : Coord} :
    c ∈ bounds_finset W H ↔ in_grid W H c := by
  rcases c with ⟨x, y⟩
  simp only [bounds_finset, Finset.mem_map, Finset.mem_product, Finset.mem_range,
    Function.Embedding.coeFn_mk, Prod.mk.injEq, in_grid, Prod.exists]
  constructor
  · rintro ⟨p, q, ⟨hp, hq⟩, h1, h2⟩
    omega
  · rintro ⟨hx0, hxW, hy0, hyH⟩
    exact ⟨x.toNat, y.toNat, ⟨by omega, by omega⟩, by omega, by omega⟩

theorem bounds_finset_card (W H : Nat) : (bounds_finset W H).card = W * H := by
  simp [bounds_finset, Finset.card_map, Finset.card_product]

theorem mine_population_mem {W H : Nat} {c : Coord} :
    c ∈ mine_population W H ↔ in_grid W H c := by
  rcases c with ⟨x, y⟩
  rw [mine_population, mem_range_flatMap_map]
  simp only [Prod.mk.injEq, in_grid]
  constructor
  · rintro ⟨i, hi, j, hj, h1, h2⟩
    omega
  · rintro ⟨hx0, hxW, hy0, hyH⟩
    exact ⟨x.toNat, by omega, y.toNat, by omega, by omega, by omega⟩

theorem mine_population_length (W H : Nat) : (mine_population W H).length = W * H := by
  rw [mine_population, length_range_flatMap_map]

theorem grid_coords_mem {W H : Nat} {c : Coord} :
    c ∈ grid_coords W H ↔ in_grid W H c := by
  rcases c with ⟨x, y⟩
  rw [grid_coords, mem_range_flatMap_map]
  simp only [Prod.mk.injEq, in_grid]
  constructor
  · rintro ⟨j, hj, i, hi, h1, h2⟩
    omega
  · rintro ⟨hx0, hxW, hy0, hyH⟩
    exact ⟨y.toNat, by omega, x.toNat, by omega, by omega, by omega⟩

theorem py_index_of_nonneg_lt {len : Nat} {i : Int} (h0 : 0 ≤ i) (h : i < (len : Int)) :
    py_index len i = some i := by
  simp [py_index, h0, h]

theorem py_index_eq_none_iff {len : Nat} {i : Int} :
    py_index len i = none ↔ i < -(len : Int) ∨ (len : Int) ≤ i := by
  simp only [py_index]
  split_ifs with h1 h2 <;> simp <;> omega

theorem get_cell_value_of_in_grid {m : Model} {c : Coord}
    (h : in_grid m.width m.height c) : Model.get_cell_value m c = some (m.grid c) := by
  obtain ⟨h1, h2, h3, h4⟩ := h
  rcases c with ⟨x, y⟩
  simp only [Model.get_cell_value, py_index_of_nonneg_lt h3 h4, py_index_of_nonneg_lt h1 h2]

theorem get_cell_value_eq_none_iff {m : Model} {index : Coord} :
    Model.get_cell_value m index = none ↔
      index.1 < -(m.width : Int) ∨ (m.width : Int) ≤ index.1 ∨
      index.2 < -(m.height : Int) ∨ (m.height : Int) ≤ index.2 := by
  unfold Model.get_cell_value
  rcases hy : py_index m.height index.2 with _ | y'
  · rw [py_index_eq_none_iff] at hy
    simp only
    constructor
    · intro _
      omega
    · intro _
      trivial
  · have hy' : py_index m.height index.2 ≠ none := by simp [hy]
    rw [Ne, py_index_eq_none_iff] at hy'
    rcases hx : py_index m.width index.1 with _ | x'
    · rw [py_index_eq_none_iff] at hx
      simp only
      constructor
      · intro _
        omega
      · intro _
        trivial
    · have hx' : py_index m.width index.1 ≠ none := by simp [hx]
      rw [Ne, py_index_eq_none_iff] at hx'
      simp only [reduceCtorEq, false_iff]
      omega

/-! ### Characterization of the constructed board -/

theorem create_grid_ne_mine (c : Coord) : create_grid c ≠ Cell.mine := by
  simp [create_grid]

theorem add_mines_eq_mine_iff {g : Grid} {mines : List Coord} {c : Coord}
    (hg : g c ≠ Cell.mine) : add_mines g mines c = Cell.mine ↔ c ∈ mines := by
  unfold add_mines
  split_ifs with h <;> simp [h, hg]

theorem mine_count_at_congr {W H : Nat} {g g0 : Grid}
    (h : ∀ c, g c = Cell.mine ↔ g0 c = Cell.mine) (p : Coord) :
    mine_count_at W H g p = mine_count_at W H g0 p := by
  unfold mine_count_at
  apply List.countP_congr
  intro a _
  by_cases hg : g a = Cell.mine
  · simp [is_mine, hg, (h a).mp hg]
  · have hg0 : g0 a ≠ Cell.mine := fun hh => hg ((h a).mpr hh)
    simp [is_mine, hg, hg0]

theorem adjacent_mine_count_foldl (W H : Nat) (g0 : Grid) :
    ∀ (L : List Coord) (g : Grid),
      (∀ c, g c = Cell.mine ↔ g0 c = Cell.mine) →
      ∀ c,
        (L.foldl
          (fun g' position =>
            if g' position ≠ Cell.mine then
              fun c => if c = position then Cell.count (mine_count_at W H g' position) else g' c
            else g') g) c
        = if c ∈ L ∧ g0 c ≠ Cell.mine then Cell.count (mine_count_at W H g0 c) else g c := by
  intro L
  induction L with
  | nil =>
    intro g hg c
    simp
  | cons p L' ih =>
    intro g hg c
    rw [List.foldl_cons]
    by_cases hp : g p = Cell.mine
    · have hp0 : g0 p = Cell.mine := (hg p).mp hp
      rw [if_neg (by simpa using hp)]
      rw [ih g hg c]
      by_cases hc : c ∈ L' ∧ g0 c ≠ Cell.mine
      · rw [if_pos hc, if_pos ⟨List.mem_cons_of_mem _ hc.1, hc.2⟩]
      · rw [if_neg hc]
        by_cases hcp : c = p
        · subst hcp
          rw [if_neg (by simp [hp0])]
        · rw [if_neg (by
            rintro ⟨hmem, hnm⟩
            rcases List.mem_cons.mp hmem with h | h
            · exact hcp h
            · exact hc ⟨h, hnm⟩)]
    · have hp0 : g0 p ≠ Cell.mine := fun hh => hp ((hg p).mpr hh)
      rw [if_pos (by simpa using hp)]
      have hg' : ∀ d, (fun c => if c = p then Cell.count (mine_count_at W H g p) else g c) d = Cell.mine
          ↔ g0 d = Cell.mine := by
        intro d
        by_cases hdp : d = p
        · subst hdp
          simp [hp0]
        · simp [hdp, hg d]
      rw [ih _ hg' c]
      by_cases hc : c ∈ L' ∧ g0 c ≠ Cell.mine
      · rw [if_pos hc, if_pos ⟨List.mem_cons_of_mem _ hc.1, hc.2⟩]
      · rw [if_neg hc]
        by_cases hcp : c = p
        · subst hcp
          rw [if_pos rfl, if_pos ⟨List.mem_cons_self _ _, hp0⟩, mine_count_at_congr hg]
        · rw [if_neg hcp]
          rw [if_neg (by
            rintro ⟨hmem, hnm⟩
            rcases List.mem_cons.mp hmem with h | h
            · exact hcp h
            · exact hc ⟨h, hnm⟩)]

theorem adjacent_mine_count_eq (W H : Nat) (g0 : Grid) (c : Coord) :
    adjacent_mine_count W H g0 c =
      if in_grid W H c ∧ g0 c ≠ Cell.mine then Cell.count (mine_count_at W H g0 c) else g0 c := by
  rw [adjacent_mine_count, adjacent_mine_count_foldl W H g0 (grid_coords W H) g0 (fun _ => Iff.rfl) c]
  by_cases hc : in_grid W H c ∧ g0 c ≠ Cell.mine
  · rw [if_pos hc, if_pos ⟨grid_coords_mem.mpr hc.1, hc.2⟩]
  · rw [if_neg hc, if_neg (fun hh => hc ⟨grid_coords_mem.mp hh.1, hh.2⟩)]

theorem model_init_isSome_iff {W H M : Nat} {chosen : List Coord} :
    (Model.init W H M chosen).isSome ↔ M ≤ W * H := by
  unfold Model.init sample
  rw [mine_population_length]
  split_ifs with h <;> simp [h]

theorem model_init_fields {W H M : Nat} {chosen : List Coord} {m : Model}
    (h : Model.init W H M chosen = some m) :
    m.width = W ∧ m.height = H ∧ m.num_mines = M ∧
    m.grid = adjacent_mine_count W H (add_mines create_grid chosen) ∧
    m.cells_revealed = ∅ ∧ m.cells_flagged = ∅ ∧ m.revealed_zeroes = ∅ ∧
    m.game_state = GameState.playing := by
  unfold Model.init sample at h
  split_ifs at h
  rcases Option.some.inj h with rfl
  exact ⟨rfl, rfl, rfl, rfl, rfl, rfl, rfl, rfl⟩

/-- For an in-bounds coordinate, the constructed grid holds a mine exactly
when the coordinate was sampled. -/
theorem init_grid_mine_iff {W H M : Nat} {chosen : List Coord} {m : Model}
    (h : Model.init W H M chosen = some m) {c : Coord} (hc : in_grid W H c) :
    (m.grid c = Cell.mine ↔ c ∈ chosen) := by
  obtain ⟨-, -, -, hgrid, -⟩ := model_init_fields h
  rw [hgrid, adjacent_mine_count_eq]
  by_cases hmem : c ∈ chosen
  · have : add_mines create_grid chosen c = Cell.mine :=
      (add_mines_eq_mine_iff (create_grid_ne_mine c)).mpr hmem
    rw [if_neg (by simp [this])]
    simp [this, hmem]
  · have : add_mines create_grid chosen c ≠ Cell.mine := by
      rw [Ne, add_mines_eq_mine_iff (create_grid_ne_mine c)]
      exact hmem
    rw [if_pos ⟨hc, this⟩]
    simp [hmem]

/-- For an in-bounds non-sampled coordinate, the constructed grid holds the
count of sampled coordinates among the in-bounds neighbours. -/
theorem init_grid_count {W H M : Nat} {chosen : List Coord} {m : Model}
    (h : Model.init W H M chosen = some m) {c : Coord} (hc : in_grid W H c)
    (hnm : c ∉ chosen) :
    m.grid c =
      Cell.count ((get_adjacent c).countP fun d => decide (in_grid W H d ∧ d ∈ chosen)) := by
  obtain ⟨-, -, -, hgrid, -⟩ := model_init_fields h
  have hne : add_mines create_grid chosen c ≠ Cell.mine := by
    rw [Ne, add_mines_eq_mine_iff (create_grid_ne_mine c)]
    exact hnm
  rw [hgrid, adjacent_mine_count_eq, if_pos ⟨hc, hne⟩]
  congr 1
  apply List.countP_congr
  intro d _
  by_cases hd : in_grid W H d
  · by_cases hdm : d ∈ chosen
    · simp [is_mine, hd, hdm, add_mines, hdm]
    · have : add_mines create_grid chosen d ≠ Cell.mine := by
        rw [Ne, add_mines_eq_mine_iff (create_grid_ne_mine d)]
        exact hdm
      simp [is_mine, hd, hdm, this]
  · simp [is_mine, hd]

theorem countP_adjacent_eq_filter_card {W H : Nat} (c : Coord) (p : Coord → Prop)
    [DecidablePred p] :
    ((get_adjacent c).countP fun d => decide (in_grid W H d ∧ p d)) =
      ((bounds_finset W H).filter fun d => chebyshev_adjacent c d ∧ p d).card := by
  rw [List.countP_eq_length_filter]
  have hnd : ((get_adjacent c).filter fun d => decide (in_grid W H d ∧ p d)).Nodup :=
    (get_adjacent_nodup c).filter _
  rw [← List.toFinset_card_of_nodup hnd]
  congr 1
  apply Finset.ext
  intro d
  simp only [List.mem_toFinset, List.mem_filter, Finset.mem_filter, bounds_finset_mem,
    get_adjacent_mem_iff, decide_eq_true_eq]
  constructor
  · rintro ⟨hadj, hin, hp⟩
    exact ⟨hin, hadj, hp⟩
  · rintro ⟨hin, hadj, hp⟩
    exact ⟨hadj, hin, hp⟩

/-- The set of in-bounds mine cells of a constructed board is the sampled
list, as a finset. -/
theorem init_mine_filter {W H M : Nat} {chosen : List Coord} {m : Model}
    (h : Model.init W H M chosen = some m)
    (hmem : ∀ c ∈ chosen, in_grid W H c) :
    ((bounds_finset W H).filter fun c => m.grid c = Cell.mine) = chosen.toFinset := by
  apply Finset.ext
  intro c
  simp only [Finset.mem_filter, bounds_finset_mem, List.mem_toFinset]
  constructor
  · rintro ⟨hin, hmine⟩
    exact (init_grid_mine_iff h hin).mp hmine
  · intro hc
    exact ⟨hmem c hc, (init_grid_mine_iff h (hmem c hc)).mpr hc⟩

/-- Count values on a constructed board never exceed 8. -/
theorem init_count_le_eight {W H M : Nat} {chosen : List Coord} {m : Model}
    (h : Model.init W H M chosen = some m) {c : Coord} (hc : in_grid W H c)
    (hnm : m.grid c ≠ Cell.mine) :
    ∃ n, n ≤ 8 ∧ m.grid c = Cell.count n := by
  have hch : c ∉ chosen := fun hmem => hnm ((init_grid_mine_iff h hc).mpr hmem)
  refine ⟨_, ?_, init_grid_count h hc hch⟩
  calc ((get_adjacent c).countP fun d => decide (in_grid W H d ∧ d ∈ chosen))
      ≤ (get_adjacent c).length := List.countP_le_length _
    _ = 8 := get_adjacent_length c

/-- On a constructed board, a zero cell has no in-bounds mine neighbour. -/
theorem init_zero_no_mine_neighbor {W H M : Nat} {chosen : List Coord} {m : Model}
    (h : Model.init W H M chosen = some m) {c : Coord} (hc : in_grid W H c)
    (h0 : m.grid c = Cell.count 0) :
    ∀ d ∈ get_adjacent c, in_grid W H d → m.grid d ≠ Cell.mine := by
  intro d hd hdin hdm
  have hch : c ∉ chosen := fun hmem => by
    rw [(init_grid_mine_iff h hc).mpr hmem] at h0
    exact Cell.noConfusion h0
  have hcnt := init_grid_count h hc hch
  rw [h0] at hcnt
  have hzero : ((get_adjacent c).countP fun d => decide (in_grid W H d ∧ d ∈ chosen)) = 0 :=
    (Cell.count.inj hcnt).symm
  rw [List.countP_eq_zero] at hzero
  have : d ∈ chosen := (init_grid_mine_iff h hdin).mp hdm
  exact absurd (by simpa using And.intro hdin this) (by simpa using hzero d hd)

/-- C1.  After `Model.__init__` with `0 < M < W*H` and a sample of `M`
distinct in-bounds coordinates, exactly `M` in-bounds coordinates hold a
mine, and every non-mine coordinate stores the number of its in-bounds
Chebyshev-distance-1 neighbours holding a mine. -/
theorem board_construction_mine_count_adjacency
    (W H M : Nat) (chosen : List Coord) (m : Model)
    (hM0 : 0 < M) (hMlt : M < W * H)
    (hnd : chosen.Nodup) (hlen : chosen.length = M)
    (hmem : ∀ c ∈ chosen, c ∈ mine_population W H)
    (hinit : Model.init W H M chosen = some m) :
    ((bounds_finset W H).filter fun c => m.grid c = Cell.mine).card = M ∧
    ∀ c ∈ bounds_finset W H, m.grid c ≠ Cell.mine →
      m.grid c = Cell.count (((bounds_finset W H).filter fun d =>
        chebyshev_adjacent c d ∧ m.grid d = Cell.mine).card) := by
  have hmem' : ∀ c ∈ chosen, in_grid W H c := fun c hc => mine_population_mem.mp (hmem c hc)
  constructor
  · rw [init_mine_filter hinit hmem', List.toFinset_card_of_nodup hnd, hlen]
  · intro c hcb hnm
    have hc : in_grid W H c := bounds_finset_mem.mp hcb
    have hch : c ∉ chosen := fun hmemc => hnm ((init_grid_mine_iff hinit hc).mpr hmemc)
    rw [init_grid_count hinit hc hch]
    congr 1
    rw [countP_adjacent_eq_filter_card c (fun d => d ∈ chosen)]
    apply Finset.card_bij (fun a _ => a)
    · intro a ha
      simp only [Finset.mem_filter, bounds_finset_mem] at ha ⊢
      exact ⟨ha.1, ha.2.1, (init_grid_mine_iff hinit ha.1).mpr ha.2.2⟩
    · intro a ha b hb hab
      exact hab
    · intro b hb
      simp only [Finset.mem_filter, bounds_finset_mem] at hb
      exact ⟨b, by
        simp only [Finset.mem_filter, bounds_finset_mem]
        exact ⟨hb.1, hb.2.1, (init_grid_mine_iff hinit hb.1).mp hb.2.2⟩, rfl⟩

def default_model : Model :=
  { width := 0, height := 0, num_mines := 0, grid := create_grid,
    cells_revealed := ∅, cells_flagged := ∅, revealed_zeroes := ∅,
    game_state := GameState.playing }

def exC1_model : Model := (Model.init 2 2 1 [((0 : Int), (0 : Int))]).getD default_model

theorem board_construction_mine_count_adjacency_witness :
    (0 < 1 ∧ 1 < 2 * 2 ∧ Model.init 2 2 1 [((0 : Int), (0 : Int))] = some exC1_model) ∧
    (((bounds_finset 2 2).filter fun c => exC1_model.grid c = Cell.mine).card = 1 ∧
      ∀ c ∈ bounds_finset 2 2, exC1_model.grid c ≠ Cell.mine →
        exC1_model.grid c = Cell.count (((bounds_finset 2 2).filter fun d =>
          chebyshev_adjacent c d ∧ exC1_model.grid d = Cell.mine).card)) :=
  ⟨⟨Nat.one_pos, by decide, rfl⟩,
    board_construction_mine_count_adjacency 2 2 1 [((0 : Int), (0 : Int))] exC1_model
      Nat.one_pos (by decide) (by decide) (by decide) (by decide) rfl⟩

/-! ### Frame properties of the controller operations -/

theorem get_cell_value_congr {m m' : Model} (hw : m'.width = m.width)
    (hh : m'.height = m.height) (hg : m'.grid = m.grid) :
    Model.get_cell_value m' = Model.get_cell_value m := by
  funext c
  unfold Model.get_cell_value
  rw [hw, hh, hg]

/-- What `Controller.reveal_zeroes` and its helpers leave intact, plus
monotonicity of the two bookkeeping sets and the provenance of new
`revealed_zeroes` entries. -/
structure ZFrame (s s' : Ctrl) : Prop where
  width_eq : s'.width = s.width
  height_eq : s'.height = s.height
  nm_eq : s'.num_mines = s.num_mines
  mwidth_eq : s'.model.width = s.model.width
  mheight_eq : s'.model.height = s.model.height
  mnm_eq : s'.model.num_mines = s.model.num_mines
  grid_eq : s'.model.grid = s.model.grid
  flags_eq : s'.model.cells_flagged = s.model.cells_flagged
  state_eq : s'.model.game_state = s.model.game_state
  rev_mono : s.model.cells_revealed ⊆ s'.model.cells_revealed
  rz_mono : s.model.revealed_zeroes ⊆ s'.model.revealed_zeroes
  rz_new : ∀ c ∈ s'.model.revealed_zeroes, c ∈ s.model.revealed_zeroes ∨
    (inb s.width s.height c ∧ Model.get_cell_value s.model c = some (Cell.count 0))

theorem ZFrame.refl (s : Ctrl) : ZFrame s s :=
  ⟨rfl, rfl, rfl, rfl, rfl, rfl, rfl, rfl, rfl, Finset.Subset.refl _, Finset.Subset.refl _,
    fun c hc => Or.inl hc⟩

theorem ZFrame.lookup_eq {s s' : Ctrl} (h : ZFrame s s') :
    Model.get_cell_value s'.model = Model.get_cell_value s.model :=
  get_cell_value_congr h.mwidth_eq h.mheight_eq h.grid_eq

theorem ZFrame.trans {s t u : Ctrl} (h1 : ZFrame s t) (h2 : ZFrame t u) : ZFrame s u := by
  refine ⟨h2.width_eq.trans h1.width_eq, h2.height_eq.trans h1.height_eq,
    h2.nm_eq.trans h1.nm_eq, h2.mwidth_eq.trans h1.mwidth_eq,
    h2.mheight_eq.trans h1.mheight_eq, h2.mnm_eq.trans h1.mnm_eq,
    h2.grid_eq.trans h1.grid_eq, h2.flags_eq.trans h1.flags_eq,
    h2.state_eq.trans h1.state_eq, h1.rev_mono.trans h2.rev_mono,
    h1.rz_mono.trans h2.rz_mono, ?_⟩
  intro c hc
  rcases h2.rz_new c hc with hc' | ⟨hin, hval⟩
  · exact h1.rz_new c hc'
  · right
    rw [h1.width_eq, h1.height_eq] at hin
    rw [h1.lookup_eq] at hval
    exact ⟨hin, hval⟩

theorem reveal_cell_width (s : Ctrl) (i : Coord) (v : Cell) :
    (Controller.reveal_cell s i v).width = s.width := by
  unfold Controller.reveal_cell
  split_ifs <;> rfl

theorem reveal_cell_height (s : Ctrl) (i : Coord) (v : Cell) :
    (Controller.reveal_cell s i v).height = s.height := by
  unfold Controller.reveal_cell
  split_ifs <;> rfl

theorem reveal_cell_num_mines (s : Ctrl) (i : Coord) (v : Cell) :
    (Controller.reveal_cell s i v).num_mines = s.num_mines := by
  unfold Controller.reveal_cell
  split_ifs <;> rfl

theorem reveal_cell_mwidth (s : Ctrl) (i : Coord) (v : Cell) :
    (Controller.reveal_cell s i v).model.width = s.model.width := by
  unfold Controller.reveal_cell
  split_ifs <;> rfl

theorem reveal_cell_mheight (s : Ctrl) (i : Coord) (v : Cell) :
    (Controller.reveal_cell s i v).model.height = s.model.height := by
  unfold Controller.reveal_cell
  split_ifs <;> rfl

theorem reveal_cell_mnm (s : Ctrl) (i : Coord) (v : Cell) :
    (Controller.reveal_cell s i v).model.num_mines = s.model.num_mines := by
  unfold Controller.reveal_cell
  split_ifs <;> rfl

theorem reveal_cell_grid (s : Ctrl) (i : Coord) (v : Cell) :
    (Controller.reveal_cell s i v).model.grid = s.model.grid := by
  unfold Controller.reveal_cell
  split_ifs <;> rfl

theorem reveal_cell_flags (s : Ctrl) (i : Coord) (v : Cell) :
    (Controller.reveal_cell s i v).model.cells_flagged = s.model.cells_flagged := by
  unfold Controller.reveal_cell
  split_ifs <;> rfl

theorem reveal_cell_state (s : Ctrl) (i : Coord) (v : Cell) :
    (Controller.reveal_cell s i v).model.game_state = s.model.game_state := by
  unfold Controller.reveal_cell
  split_ifs <;> rfl

theorem reveal_cell_rz (s : Ctrl) (i : Coord) (v : Cell) :
    (Controller.reveal_cell s i v).model.revealed_zeroes = s.model.revealed_zeroes := by
  unfold Controller.reveal_cell
  split_ifs <;> rfl

theorem reveal_cell_rev (s : Ctrl) (i : Coord) (v : Cell) :
    (Controller.reveal_cell s i v).model.cells_revealed =
      if i ∈ s.model.cells_flagged then s.model.cells_revealed
      else insert i s.model.cells_revealed := by
  unfold Controller.reveal_cell
  split_ifs <;> rfl

theorem reveal_cell_rev_mem (s : Ctrl) (i : Coord) (v : Cell) (c : Coord) :
    (c ∈ (Controller.reveal_cell s i v).model.cells_revealed ↔
      c ∈ s.model.cells_revealed ∨ (c = i ∧ i ∉ s.model.cells_flagged)) := by
  rw [reveal_cell_rev]
  split_ifs with h <;> simp [h] <;> tauto

theorem reveal_cell_zframe (s : Ctrl) (i : Coord) (v : Cell) :
    ZFrame s (Controller.reveal_cell s i v) := by
  refine ⟨reveal_cell_width s i v, reveal_cell_height s i v, reveal_cell_num_mines s i v,
    reveal_cell_mwidth s i v, reveal_cell_mheight s i v, reveal_cell_mnm s i v,
    reveal_cell_grid s i v, reveal_cell_flags s i v, reveal_cell_state s i v, ?_, ?_, ?_⟩
  · rw [reveal_cell_rev]
    split_ifs
    · exact Finset.Subset.refl _
    · exact Finset.subset_insert _ _
  · rw [reveal_cell_rz]
  · rw [reveal_cell_rz]
    exact fun c hc => Or.inl hc

theorem mark_zero_rz (s : Ctrl) (c : Coord) :
    (Controller.mark_zero s c).model.revealed_zeroes = insert c s.model.revealed_zeroes := rfl

theorem mark_zero_lookup (s : Ctrl) (c : Coord) :
    Model.get_cell_value (Controller.mark_zero s c).model = Model.get_cell_value s.model := rfl

theorem mark_zero_zframe {s : Ctrl} {c : Coord} (hin : inb s.width s.height c)
    (hval : Model.get_cell_value s.model c = some (Cell.count 0)) :
    ZFrame s (Controller.mark_zero s c) := by
  refine ⟨rfl, rfl, rfl, rfl, rfl, rfl, rfl, rfl, rfl, Finset.Subset.refl _,
    Finset.subset_insert _ _, ?_⟩
  intro d hd
  rw [mark_zero_rz] at hd
  rcases Finset.mem_insert.mp hd with rfl | hd'
  · exact Or.inr ⟨hin, hval⟩
  · exact Or.inl hd'

theorem reveal_adjacent_step_zframe (t : Ctrl) (c : Coord) :
    ZFrame t (Controller.reveal_adjacent_step t c) := by
  unfold Controller.reveal_adjacent_step
  split_ifs
  · rcases h : Model.get_cell_value t.model c with _ | v
    · exact ZFrame.refl t
    · exact reveal_cell_zframe t c v
  · exact ZFrame.refl t

theorem foldl_zframe {f : Ctrl → Coord → Ctrl} (hf : ∀ t c, ZFrame t (f t c)) :
    ∀ (l : List Coord) (s : Ctrl), ZFrame s (l.foldl f s) := by
  intro l
  induction l with
  | nil => exact fun s => ZFrame.refl s
  | cons c l ih => exact fun s => ZFrame.trans (hf s c) (ih (f s c))

theorem reveal_adjacent_zframe (s : Ctrl) (i : Coord) :
    ZFrame s (Controller.reveal_adjacent s i) :=
  foldl_zframe reveal_adjacent_step_zframe _ s

theorem reveal_adjacent_rz (s : Ctrl) (i : Coord) :
    (Controller.reveal_adjacent s i).model.revealed_zeroes = s.model.revealed_zeroes := by
  unfold Controller.reveal_adjacent
  generalize get_adjacent i = l
  induction l generalizing s with
  | nil => rfl
  | cons c l ih =>
    rw [List.foldl_cons, ih]
    unfold Controller.reveal_adjacent_step
    split_ifs
    · rcases Model.get_cell_value s.model c with _ | v
      · rfl
      · exact reveal_cell_rz s c v
    · rfl

theorem reveal_adjacent_foldl_rev (s : Ctrl)
    (hsome : ∀ d, inb s.width s.height d → (Model.get_cell_value s.model d).isSome) :
    ∀ (l : List Coord) (t : Ctrl), ZFrame s t →
      ∀ c, (c ∈ (l.foldl Controller.reveal_adjacent_step t).model.cells_revealed ↔
        c ∈ t.model.cells_revealed ∨
          (c ∈ l ∧ inb s.width s.height c ∧ c ∉ s.model.cells_flagged)) := by
  intro l
  induction l with
  | nil =>
    intro t _ c
    simp
  | cons d l ih =>
    intro t ht c
    rw [List.foldl_cons]
    by_cases hd : inb s.width s.height d
    · have hd' : Controller.in_bounds t d := by
        unfold Controller.in_bounds
        rw [ht.width_eq, ht.height_eq]
        exact hd
      have hsome' : (Model.get_cell_value t.model d).isSome := by
        rw [ht.lookup_eq]
        exact hsome d hd
      rcases hv : Model.get_cell_value t.model d with _ | v
      · rw [hv] at hsome'
        exact absurd hsome' (by simp)
      · have hstep : Controller.reveal_adjacent_step t d = Controller.reveal_cell t d v := by
          unfold Controller.reveal_adjacent_step
          rw [if_pos hd', hv]
        rw [hstep, ih _ (ZFrame.trans ht (reveal_cell_zframe t d v)) c,
          reveal_cell_rev_mem, ht.flags_eq]
        simp only [List.mem_cons]
        constructor
        · rintro ((hc | ⟨rfl, hf⟩) | ⟨hcl, hin, hf⟩)
          · exact Or.inl hc
          · exact Or.inr ⟨Or.inl rfl, hd, hf⟩
          · exact Or.inr ⟨Or.inr hcl, hin, hf⟩
        · rintro (hc | ⟨rfl | hcl, hin, hf⟩)
          · exact Or.inl (Or.inl hc)
          · exact Or.inl (Or.inr ⟨rfl, hf⟩)
          · exact Or.inr ⟨hcl, hin, hf⟩
    · have hd' : ¬ Controller.in_bounds t d := by
        unfold Controller.in_bounds
        rw [ht.width_eq, ht.height_eq]
        exact hd
      have hstep : Controller.reveal_adjacent_step t d = t := by
        unfold Controller.reveal_adjacent_step
        rw [if_neg hd']
      rw [hstep, ih t ht c]
      simp only [List.mem_cons]
      constructor
      · rintro (hc | ⟨hcl, hin, hf⟩)
        · exact Or.inl hc
        · exact Or.inr ⟨Or.inr hcl, hin, hf⟩
      · rintro (hc | ⟨rfl | hcl, hin, hf⟩)
        · exact Or.inl hc
        · exact absurd hin hd
        · exact Or.inr ⟨hcl, hin, hf⟩

theorem reveal_adjacent_rev_mem (s : Ctrl) (i : Coord)
    (hsome : ∀ d, inb s.width s.height d → (Model.get_cell_value s.model d).isSome) (c : Coord) :
    (c ∈ (Controller.reveal_adjacent s i).model.cells_revealed ↔
      c ∈ s.model.cells_revealed ∨
        (c ∈ get_adjacent i ∧ inb s.width s.height c ∧ c ∉ s.model.cells_flagged)) :=
  reveal_adjacent_foldl_rev s hsome (get_adjacent i) s (ZFrame.refl s) c

theorem zloop_foldl_none {F : Ctrl → Coord → Option Ctrl} (l : List Coord) :
    l.foldl (Controller.zloop_step F) none = none := by
  induction l with
  | nil => rfl
  | cons c l ih => exact ih

theorem zloop_step_some {F : Ctrl → Coord → Option Ctrl} (acc : Ctrl) (c : Coord) :
    Controller.zloop_step F (some acc) c =
      if Controller.in_bounds acc c
          ∧ Model.get_cell_value acc.model c = some (Cell.count 0)
          ∧ c ∉ acc.model.revealed_zeroes then
        F (Controller.mark_zero acc c) c
      else some acc := rfl

theorem zloop_frame {F : Ctrl → Coord → Option Ctrl}
    (hF : ∀ t c t', F t c = some t' → ZFrame t t') :
    ∀ (l : List Coord) (acc s' : Ctrl),
      l.foldl (Controller.zloop_step F) (some acc) = some s' → ZFrame acc s' := by
  intro l
  induction l with
  | nil =>
    intro acc s' h
    cases Option.some.inj h
    exact ZFrame.refl acc
  | cons c l ih =>
    intro acc s' h
    rw [List.foldl_cons, zloop_step_some] at h
    split_ifs at h with hcond
    · rcases hFc : F (Controller.mark_zero acc c) c with _ | t1
      · rw [hFc, zloop_foldl_none] at h
        exact Option.noConfusion h
      · rw [hFc] at h
        exact ZFrame.trans
          (ZFrame.trans (mark_zero_zframe hcond.1 hcond.2.1) (hF _ _ _ hFc)) (ih t1 s' h)
    · exact ih acc s' h

theorem zloop_isSome {F : Ctrl → Coord → Option Ctrl} {n : Nat}
    (hFrame : ∀ t c t', F t c = some t' → ZFrame t t')
    (hF : ∀ t c, (bounds_finset t.width t.height \ t.model.revealed_zeroes).card < n →
        (Model.get_cell_value t.model c).isSome → (F t c).isSome) :
    ∀ (l : List Coord) (acc : Ctrl),
      (bounds_finset acc.width acc.height \ acc.model.revealed_zeroes).card ≤ n →
      (l.foldl (Controller.zloop_step F) (some acc)).isSome := by
  intro l
  induction l with
  | nil =>
    intro acc _
    simp
  | cons c l ih =>
    intro acc hcard
    rw [List.foldl_cons, zloop_step_some]
    split_ifs with hcond
    · obtain ⟨hin, hval, hnotin⟩ := hcond
      have hcB : c ∈ bounds_finset acc.width acc.height \ acc.model.revealed_zeroes := by
        rw [Finset.mem_sdiff, bounds_finset_mem]
        exact ⟨inb_iff_in_grid.mp hin, hnotin⟩
      have hcard1 : (bounds_finset acc.width acc.height \ insert c acc.model.revealed_zeroes).card
          < n := by
        rw [Finset.sdiff_insert, Finset.card_erase_of_mem hcB]
        have hpos : 0 < (bounds_finset acc.width acc.height \ acc.model.revealed_zeroes).card :=
          Finset.card_pos.mpr ⟨c, hcB⟩
        omega
      have hmark : (bounds_finset (Controller.mark_zero acc c).width
            (Controller.mark_zero acc c).height \
            (Controller.mark_zero acc c).model.revealed_zeroes).card < n := by
        rw [mark_zero_rz]
        exact hcard1
      have hvs : (Model.get_cell_value (Controller.mark_zero acc c).model c).isSome := by
        rw [mark_zero_lookup, hval]
        rfl
      have := hF (Controller.mark_zero acc c) c hmark hvs
      rcases hFc : F (Controller.mark_zero acc c) c with _ | t1
      · rw [hFc] at this
        exact absurd this (by simp)
      · apply ih t1
        have hfr := hFrame _ _ _ hFc
        have hw : (Controller.mark_zero acc c).width = acc.width := rfl
        have hh : (Controller.mark_zero acc c).height = acc.height := rfl
        rw [hfr.width_eq, hfr.height_eq, hw, hh]
        apply Nat.le_of_lt
        calc (bounds_finset acc.width acc.height \ t1.model.revealed_zeroes).card
            ≤ (bounds_finset acc.width acc.height \
                (Controller.mark_zero acc c).model.revealed_zeroes).card := by
              apply Finset.card_le_card
              apply Finset.sdiff_subset_sdiff (Finset.Subset.refl _) hfr.rz_mono
          _ < n := hmark
    · exact ih acc hcard

theorem reveal_zeroes_frame :
    ∀ (fuel : Nat) (s : Ctrl) (index : Coord) (s' : Ctrl),
      Controller.reveal_zeroes fuel s index = some s' → ZFrame s s' := by
  intro fuel
  induction fuel with
  | zero =>
    intro s index s' h
    exact Option.noConfusion h
  | succ fuel ih =>
    intro s index s' h
    rw [Controller.reveal_zeroes] at h
    rcases hv : Model.get_cell_value s.model index with _ | val
    · rw [hv] at h
      exact Option.noConfusion h
    · rw [hv] at h
      simp only at h
      split_ifs at h with hval
      · have hloop := zloop_frame (fun t c t' hh => ih t c t' hh) _ _ _ h
        exact ZFrame.trans
          (ZFrame.trans (reveal_cell_zframe s index val)
            (reveal_adjacent_zframe (Controller.reveal_cell s index val) index)) hloop
      · cases Option.some.inj h
        exact ZFrame.refl s

theorem reveal_zeroes_isSome :
    ∀ (fuel : Nat) (s : Ctrl) (index : Coord),
      (bounds_finset s.width s.height \ s.model.revealed_zeroes).card < fuel →
      (Model.get_cell_value s.model index).isSome →
      (Controller.reveal_zeroes fuel s index).isSome := by
  intro fuel
  induction fuel with
  | zero =>
    intro s index hcard _
    exact absurd hcard (by omega)
  | succ fuel ih =>
    intro s index hcard hsome
    rw [Controller.reveal_zeroes]
    rcases hv : Model.get_cell_value s.model index with _ | val
    · rw [hv] at hsome
      exact absurd hsome (by simp)
    · simp only
      split_ifs with hval
      · set s1 := Controller.reveal_cell s index val with hs1
        set s2 := Controller.reveal_adjacent s1 index with hs2
        have hfr : ZFrame s s2 :=
          ZFrame.trans (reveal_cell_zframe s index val) (reveal_adjacent_zframe s1 index)
        apply zloop_isSome (fun t c t' hh => reveal_zeroes_frame fuel t c t' hh)
          (fun t c hc hv' => ih t c hc hv')
        rw [hfr.width_eq, hfr.height_eq]
        have hrz : s2.model.revealed_zeroes = s.model.revealed_zeroes := by
          rw [hs2, reveal_adjacent_rz, hs1, reveal_cell_rz]
        rw [hrz]
        omega
      · rfl

/-! ### Exact characterization of the flood fill -/

/-- `x` is revealed on behalf of a flood-filled cell `a`: it is `a` itself
or an in-bounds neighbour of `a`. -/
def reveals_from (W H : Nat) (a x : Coord) : Prop :=
  x = a ∨ (x ∈ get_adjacent a ∧ inb W H x)

/-- One flood-fill step relative to board data `(W, H, V)`. -/
def flood_step (W H : Nat) (V : Coord → Option Cell) (u v : Coord) : Prop :=
  v ∈ get_adjacent u ∧ inb W H v ∧ V v = some (Cell.count 0)

theorem rz_split {A B C : Finset Coord} {c : Coord}
    (hcA : c ∉ A) (hcB : c ∈ B) (hAB : insert c A ⊆ B) (hBC : B ⊆ C) :
    ∀ a, (a ∈ C ∧ a ∉ A) ↔ (a = c ∨ (a ∈ B ∧ a ∉ insert c A) ∨ (a ∈ C ∧ a ∉ B)) := by
  intro a
  by_cases hac : a = c
  · subst hac
    simp [hcA, hBC hcB]
  · have h1 : a ∈ B → a ∈ C := fun h => hBC h
    have h2 : a ∈ A → a ∈ B := fun h => hAB (Finset.mem_insert_of_mem h)
    simp only [hac, false_or, Finset.mem_insert, not_or]
    tauto

theorem zloop_spec {F : Ctrl → Coord → Option Ctrl} {W H : Nat} {V : Coord → Option Cell}
    (hFrame : ∀ t c t', F t c = some t' → ZFrame t t')
    (hFspec : ∀ t c t', t.width = W → t.height = H → Model.get_cell_value t.model = V →
        V c = some (Cell.count 0) → F t c = some t' →
        (∀ x, x ∈ t'.model.cells_revealed ↔ x ∈ t.model.cells_revealed ∨
          ((∃ a, (a = c ∨ (a ∈ t'.model.revealed_zeroes ∧ a ∉ t.model.revealed_zeroes)) ∧
            reveals_from W H a x) ∧ x ∉ t.model.cells_flagged)) ∧
        (∀ a, a ∈ t'.model.revealed_zeroes → a ∉ t.model.revealed_zeroes →
          Relation.ReflTransGen (flood_step W H V) c a) ∧
        (∀ a, (a = c ∨ (a ∈ t'.model.revealed_zeroes ∧ a ∉ t.model.revealed_zeroes)) →
          ∀ d, d ∈ get_adjacent a → inb W H d → V d = some (Cell.count 0) →
            d ∈ t'.model.revealed_zeroes)) :
    ∀ (l : List Coord) (acc s' : Ctrl),
      acc.width = W → acc.height = H → Model.get_cell_value acc.model = V →
      l.foldl (Controller.zloop_step F) (some acc) = some s' →
      (∀ x, x ∈ s'.model.cells_revealed ↔ x ∈ acc.model.cells_revealed ∨
        ((∃ a, a ∈ s'.model.revealed_zeroes ∧ a ∉ acc.model.revealed_zeroes ∧
          reveals_from W H a x) ∧ x ∉ acc.model.cells_flagged)) ∧
      (∀ a, a ∈ s'.model.revealed_zeroes → a ∉ acc.model.revealed_zeroes →
        ∃ b, b ∈ l ∧ (inb W H b ∧ V b = some (Cell.count 0)) ∧
          Relation.ReflTransGen (flood_step W H V) b a) ∧
      (∀ a, a ∈ s'.model.revealed_zeroes → a ∉ acc.model.revealed_zeroes →
        ∀ d, d ∈ get_adjacent a → inb W H d → V d = some (Cell.count 0) →
          d ∈ s'.model.revealed_zeroes) ∧
      (∀ b, b ∈ l → inb W H b → V b = some (Cell.count 0) →
        b ∈ s'.model.revealed_zeroes) := by
  intro l
  induction l with
  | nil =>
    intro acc s' hW hH hV h
    cases Option.some.inj h
    refine ⟨fun x => ?_, fun a ha hna => absurd ha hna, fun a ha hna => absurd ha hna,
      fun b hb => absurd hb (List.not_mem_nil b)⟩
    constructor
    · intro hx
      exact Or.inl hx
    · rintro (hx | ⟨⟨a, ha, hna, _⟩, _⟩)
      · exact hx
      · exact absurd ha hna
  | cons c l ih =>
    intro acc s' hW hH hV h
    rw [List.foldl_cons, zloop_step_some] at h
    split_ifs at h with hcond
    · obtain ⟨hin, hval, hnotin⟩ := hcond
      set acc1 := Controller.mark_zero acc c with hacc1
      rcases hFc : F acc1 c with _ | t1
      · rw [hFc, zloop_foldl_none] at h
        exact Option.noConfusion h
      rw [hFc] at h
      have hW1 : acc1.width = W := hW
      have hH1 : acc1.height = H := hH
      have hV1 : Model.get_cell_value acc1.model = V := hV
      have hfr2 : ZFrame acc1 t1 := hFrame _ _ _ hFc
      have hfr3 : ZFrame t1 s' := zloop_frame hFrame l t1 s' h
      have hWt : t1.width = W := by rw [hfr2.width_eq]; exact hW1
      have hHt : t1.height = H := by rw [hfr2.height_eq]; exact hH1
      have hVt : Model.get_cell_value t1.model = V := by rw [hfr2.lookup_eq]; exact hV1
      have hVc : V c = some (Cell.count 0) := by rw [← hV]; exact hval
      obtain ⟨S1, S2, S3⟩ := hFspec acc1 c t1 hW1 hH1 hV1 hVc hFc
      obtain ⟨L1, L2, L3, L4⟩ := ih t1 s' hWt hHt hVt h
      have hrz1 : acc1.model.revealed_zeroes = insert c acc.model.revealed_zeroes :=
        mark_zero_rz acc c
      have hcA : c ∉ acc.model.revealed_zeroes := hnotin
      have hsub1 : insert c acc.model.revealed_zeroes ⊆ t1.model.revealed_zeroes := by
        rw [← hrz1]
        exact hfr2.rz_mono
      have hcB : c ∈ t1.model.revealed_zeroes := hsub1 (Finset.mem_insert_self c _)
      have hsplit := rz_split hcA hcB hsub1 hfr3.rz_mono
      have hflags1 : acc1.model.cells_flagged = acc.model.cells_flagged := rfl
      have hflagst : t1.model.cells_flagged = acc.model.cells_flagged := by
        rw [hfr2.flags_eq]
        exact hflags1
      have hrev1 : acc1.model.cells_revealed = acc.model.cells_revealed := rfl
      have hinWH : inb W H c := by rw [← hW, ← hH]; exact hin
      refine ⟨?_, ?_, ?_, ?_⟩
      · intro x
        rw [L1 x, S1 x, hrev1, hflags1, hflagst, hrz1]
        constructor
        · rintro ((hx | ⟨⟨a, ha, hrf⟩, hfl⟩) | ⟨⟨a, ha, hna, hrf⟩, hfl⟩)
          · exact Or.inl hx
          · rcases ha with rfl | ⟨haB, hnaA1⟩
            · exact Or.inr ⟨⟨a, ((hsplit a).mpr (Or.inl rfl)).1,
                ((hsplit a).mpr (Or.inl rfl)).2, hrf⟩, hfl⟩
            · exact Or.inr ⟨⟨a, ((hsplit a).mpr (Or.inr (Or.inl ⟨haB, hnaA1⟩))).1,
                ((hsplit a).mpr (Or.inr (Or.inl ⟨haB, hnaA1⟩))).2, hrf⟩, hfl⟩
          · exact Or.inr ⟨⟨a, ((hsplit a).mpr (Or.inr (Or.inr ⟨ha, hna⟩))).1,
              ((hsplit a).mpr (Or.inr (Or.inr ⟨ha, hna⟩))).2, hrf⟩, hfl⟩
        · rintro (hx | ⟨⟨a, ha, hna, hrf⟩, hfl⟩)
          · exact Or.inl (Or.inl hx)
          · rcases (hsplit a).mp ⟨ha, hna⟩ with rfl | hmid | hright
            · exact Or.inl (Or.inr ⟨⟨a, Or.inl rfl, hrf⟩, hfl⟩)
            · exact Or.inl (Or.inr ⟨⟨a, Or.inr ⟨hmid.1, hmid.2⟩, hrf⟩, hfl⟩)
            · exact Or.inr ⟨⟨a, hright.1, hright.2, hrf⟩, hfl⟩
      · intro a ha hna
        rcases (hsplit a).mp ⟨ha, hna⟩ with rfl | hmid | hright
        · exact ⟨a, List.mem_cons_self a l, ⟨hinWH, hVc⟩, Relation.ReflTransGen.refl⟩
        · refine ⟨c, List.mem_cons_self c l, ⟨hinWH, hVc⟩, S2 a hmid.1 ?_⟩
          rw [hrz1]
          exact hmid.2
        · obtain ⟨b, hbl, hbp, hreach⟩ := L2 a hright.1 hright.2
          exact ⟨b, List.mem_cons_of_mem c hbl, hbp, hreach⟩
      · intro a ha hna d hd hdin hdV
        rcases (hsplit a).mp ⟨ha, hna⟩ with rfl | hmid | hright
        · exact hfr3.rz_mono (S3 a (Or.inl rfl) d hd hdin hdV)
        · refine hfr3.rz_mono (S3 a (Or.inr ⟨hmid.1, ?_⟩) d hd hdin hdV)
          rw [hrz1]
          exact hmid.2
        · exact L3 a hright.1 hright.2 d hd hdin hdV
      · intro b hb hbin hbV
        rcases List.mem_cons.mp hb with rfl | hbl
        · exact hfr3.rz_mono (hsub1 (Finset.mem_insert_self b _))
        · exact L4 b hbl hbin hbV
    · obtain ⟨L1, L2, L3, L4⟩ := ih acc s' hW hH hV h
      have hfr : ZFrame acc s' := zloop_frame hFrame l acc s' h
      refine ⟨L1, ?_, L3, ?_⟩
      · intro a ha hna
        obtain ⟨b, hbl, hbp, hreach⟩ := L2 a ha hna
        exact ⟨b, List.mem_cons_of_mem c hbl, hbp, hreach⟩
      · intro b hb hbin hbV
        rcases List.mem_cons.mp hb with rfl | hbl
        · have hmem : b ∈ acc.model.revealed_zeroes := by
            by_contra hnb
            refine hcond ⟨?_, ?_, hnb⟩
            · show inb acc.width acc.height b
              rw [hW, hH]
              exact hbin
            · rw [hV]
              exact hbV
          exact hfr.rz_mono hmem
        · exact L4 b hbl hbin hbV

theorem reveal_zeroes_spec {W H : Nat} {V : Coord → Option Cell}
    (hsome : ∀ d, inb W H d → (V d).isSome) :
    ∀ (fuel : Nat) (s : Ctrl) (index : Coord) (s' : Ctrl),
      s.width = W → s.height = H → Model.get_cell_value s.model = V →
      V index = some (Cell.count 0) →
      Controller.reveal_zeroes fuel s index = some s' →
      (∀ x, x ∈ s'.model.cells_revealed ↔ x ∈ s.model.cells_revealed ∨
        ((∃ a, (a = index ∨ (a ∈ s'.model.revealed_zeroes ∧ a ∉ s.model.revealed_zeroes)) ∧
          reveals_from W H a x) ∧ x ∉ s.model.cells_flagged)) ∧
      (∀ a, a ∈ s'.model.revealed_zeroes → a ∉ s.model.revealed_zeroes →
        Relation.ReflTransGen (flood_step W H V) index a) ∧
      (∀ a, (a = index ∨ (a ∈ s'.model.revealed_zeroes ∧ a ∉ s.model.revealed_zeroes)) →
        ∀ d, d ∈ get_adjacent a → inb W H d → V d = some (Cell.count 0) →
          d ∈ s'.model.revealed_zeroes) := by
  intro fuel
  induction fuel with
  | zero =>
    intro s index s' _ _ _ _ hrz
    exact Option.noConfusion hrz
  | succ fuel ih =>
    intro s index s' hW hH hV hVi hrz
    have hv : Model.get_cell_value s.model index = some (Cell.count 0) := by
      rw [hV]
      exact hVi
    rw [Controller.reveal_zeroes, hv] at hrz
    simp only [if_pos rfl] at hrz
    set s1 := Controller.reveal_cell s index (Cell.count 0) with hs1def
    set s2 := Controller.reveal_adjacent s1 index with hs2def
    have hfr1 : ZFrame s s1 := reveal_cell_zframe s index (Cell.count 0)
    have hfr12 : ZFrame s1 s2 := reveal_adjacent_zframe s1 index
    have hfr2 : ZFrame s s2 := ZFrame.trans hfr1 hfr12
    have hW2 : s2.width = W := by rw [hfr2.width_eq, hW]
    have hH2 : s2.height = H := by rw [hfr2.height_eq, hH]
    have hV2 : Model.get_cell_value s2.model = V := by rw [hfr2.lookup_eq, hV]
    have hrz2 : s2.model.revealed_zeroes = s.model.revealed_zeroes := by
      rw [hs2def, reveal_adjacent_rz, hs1def, reveal_cell_rz]
    have hflags2 : s2.model.cells_flagged = s.model.cells_flagged := hfr2.flags_eq
    have hW1 : s1.width = W := by rw [hfr1.width_eq, hW]
    have hH1 : s1.height = H := by rw [hfr1.height_eq, hH]
    have hV1 : Model.get_cell_value s1.model = V := by rw [hfr1.lookup_eq, hV]
    have hsome1 : ∀ d, inb s1.width s1.height d → (Model.get_cell_value s1.model d).isSome := by
      intro d hd
      rw [hV1]
      rw [hW1, hH1] at hd
      exact hsome d hd
    have hrev2 : ∀ x, x ∈ s2.model.cells_revealed ↔
        x ∈ s.model.cells_revealed ∨
        ((x = index ∧ x ∉ s.model.cells_flagged) ∨
          (x ∈ get_adjacent index ∧ inb W H x ∧ x ∉ s.model.cells_flagged)) := by
      intro x
      rw [hs2def, reveal_adjacent_rev_mem s1 index hsome1 x, reveal_cell_rev_mem, hW1, hH1,
        hfr1.flags_eq]
      constructor
      · rintro ((hx | ⟨rfl, hfl⟩) | ⟨hadj, hinb, hfl⟩)
        · exact Or.inl hx
        · exact Or.inr (Or.inl ⟨rfl, hfl⟩)
        · exact Or.inr (Or.inr ⟨hadj, hinb, hfl⟩)
      · rintro (hx | (⟨rfl, hfl⟩ | ⟨hadj, hinb, hfl⟩))
        · exact Or.inl (Or.inl hx)
        · exact Or.inl (Or.inr ⟨rfl, hfl⟩)
        · exact Or.inr ⟨hadj, hinb, hfl⟩
    obtain ⟨L1, L2, L3, L4⟩ :=
      zloop_spec (fun t c t' hh => reveal_zeroes_frame fuel t c t' hh)
        (fun t c t' h1 h2 h3 h4 h5 => ih t c t' h1 h2 h3 h4 h5)
        (get_adjacent index) s2 s' hW2 hH2 hV2 hrz
    have hfr3 : ZFrame s2 s' := zloop_frame (fun t c t' hh => reveal_zeroes_frame fuel t c t' hh)
      (get_adjacent index) s2 s' hrz
    refine ⟨?_, ?_, ?_⟩
    · intro x
      constructor
      · intro hx
        rcases (L1 x).mp hx with hx2 | ⟨⟨a, haS, hnaS2, hrf⟩, hfl⟩
        · rcases (hrev2 x).mp hx2 with hxs | (⟨rfl, hfl⟩ | ⟨hadj, hinb, hfl⟩)
          · exact Or.inl hxs
          · exact Or.inr ⟨⟨x, Or.inl rfl, Or.inl rfl⟩, hfl⟩
          · exact Or.inr ⟨⟨index, Or.inl rfl, Or.inr ⟨hadj, hinb⟩⟩, hfl⟩
        · rw [hrz2] at hnaS2
          rw [hflags2] at hfl
          exact Or.inr ⟨⟨a, Or.inr ⟨haS, hnaS2⟩, hrf⟩, hfl⟩
      · rintro (hxs | ⟨⟨a, ha, hrf⟩, hfl⟩)
        · exact hfr3.rev_mono ((hrev2 x).mpr (Or.inl hxs))
        · rcases ha with rfl | ⟨haS, hnaS⟩
          · rcases hrf with rfl | ⟨hadj, hinb⟩
            · exact hfr3.rev_mono ((hrev2 x).mpr (Or.inr (Or.inl ⟨rfl, hfl⟩)))
            · exact hfr3.rev_mono ((hrev2 x).mpr (Or.inr (Or.inr ⟨hadj, hinb, hfl⟩)))
          · refine (L1 x).mpr (Or.inr ⟨⟨a, haS, ?_, hrf⟩, ?_⟩)
            · rw [hrz2]
              exact hnaS
            · rw [hflags2]
              exact hfl
    · intro a ha hna
      rw [← hrz2] at hna
      obtain ⟨b, hbl, ⟨hbin, hbV⟩, hreach⟩ := L2 a ha hna
      exact Relation.ReflTransGen.head ⟨hbl, hbin, hbV⟩ hreach
    · rintro a (rfl | ⟨haS, hnaS⟩) d hd hdin hdV
      · exact L4 d hd hdin hdV
      · refine L3 a haS ?_ d hd hdin hdV
        rw [hrz2]
        exact hnaS

theorem flood_step_iff_zero_step {s : Ctrl} (hWF : WF s) (u v : Coord) :
    flood_step s.width s.height (Model.get_cell_value s.model) u v ↔ zero_step s.model u v := by
  obtain ⟨hw, hh, -⟩ := hWF
  unfold flood_step zero_step
  constructor
  · rintro ⟨hadj, hinb, hV⟩
    have hig : in_grid s.model.width s.model.height v := by
      rw [hw, hh]
      exact inb_iff_in_grid.mp hinb
    refine ⟨hadj, hig, ?_⟩
    rw [get_cell_value_of_in_grid hig] at hV
    exact Option.some.inj hV
  · rintro ⟨hadj, hig, hg⟩
    refine ⟨hadj, ?_, ?_⟩
    · apply inb_iff_in_grid.mpr
      rw [← hw, ← hh]
      exact hig
    · rw [get_cell_value_of_in_grid hig, hg]

/-- C2 (amended).  On any well-formed state, flood-filling from an in-bounds
zero cell whose connected zero region is disjoint from the visited set
terminates with fuel `width*height + 1`, leaves flags and status unchanged,
and reveals exactly the zero region of the start cell together with the
in-bounds neighbours of that region, minus flagged cells. -/
theorem flood_fill_region (s : Ctrl) (index : Coord)
    (hWF : WF s)
    (hin : in_grid s.model.width s.model.height index)
    (h0 : s.model.grid index = Cell.count 0)
    (hfresh : ∀ c, zero_reach s.model index c → c ∉ s.model.revealed_zeroes) :
    ∃ s', Controller.reveal_zeroes (s.width * s.height + 1) s index = some s' ∧
      s'.model.cells_flagged = s.model.cells_flagged ∧
      s'.model.game_state = s.model.game_state ∧
      (∀ x, x ∈ s'.model.cells_revealed ↔ x ∈ s.model.cells_revealed ∨
        ((∃ a, zero_reach s.model index a ∧
          (x = a ∨ (x ∈ get_adjacent a ∧ in_grid s.model.width s.model.height x))) ∧
          x ∉ s.model.cells_flagged)) := by
  obtain ⟨hw, hh, hm⟩ := hWF
  have hsome : ∀ d, inb s.width s.height d →
      ((Model.get_cell_value s.model) d).isSome := by
    intro d hd
    have hig : in_grid s.model.width s.model.height d := by
      rw [hw, hh]
      exact inb_iff_in_grid.mp hd
    rw [get_cell_value_of_in_grid hig]
    rfl
  have hig : in_grid s.width s.height index := by
    rw [← hw, ← hh]
    exact hin
  have hvi : Model.get_cell_value s.model index = some (Cell.count 0) := by
    rw [get_cell_value_of_in_grid hin, h0]
  have hterm : (Controller.reveal_zeroes (s.width * s.height + 1) s index).isSome := by
    apply reveal_zeroes_isSome
    · calc (bounds_finset s.width s.height \ s.model.revealed_zeroes).card
          ≤ (bounds_finset s.width s.height).card :=
            Finset.card_le_card (Finset.sdiff_subset)
        _ = s.width * s.height := bounds_finset_card s.width s.height
        _ < s.width * s.height + 1 := Nat.lt_succ_self _
    · rw [hvi]
      rfl
  rcases hres : Controller.reveal_zeroes (s.width * s.height + 1) s index with _ | s'
  · rw [hres] at hterm
    exact absurd hterm (by simp)
  obtain ⟨S1, S2, S3⟩ := reveal_zeroes_spec hsome (s.width * s.height + 1) s index s'
    rfl rfl rfl hvi hres
  have hfr : ZFrame s s' := reveal_zeroes_frame _ s index s' hres
  have hstep_iff : ∀ u v, flood_step s.width s.height (Model.get_cell_value s.model) u v ↔
      zero_step s.model u v := flood_step_iff_zero_step ⟨hw, hh, hm⟩
  have hreach_of : ∀ a, Relation.ReflTransGen
        (flood_step s.width s.height (Model.get_cell_value s.model)) index a →
      zero_reach s.model index a := by
    intro a ha
    exact Relation.ReflTransGen.mono (fun u v huv => (hstep_iff u v).mp huv) ha
  have hprocessed : ∀ a, zero_reach s.model index a →
      (a = index ∨ (a ∈ s'.model.revealed_zeroes ∧ a ∉ s.model.revealed_zeroes)) := by
    intro a ha
    induction ha with
    | refl => exact Or.inl rfl
    | @tail b cc hab hstep ihab =>
      obtain ⟨hadj, higc, hgc⟩ := hstep
      have hinb : inb s.width s.height cc := by
        apply inb_iff_in_grid.mpr
        rw [← hw, ← hh]
        exact higc
      have hVc : Model.get_cell_value s.model cc = some (Cell.count 0) := by
        rw [get_cell_value_of_in_grid higc, hgc]
      have hmem : cc ∈ s'.model.revealed_zeroes := S3 b ihab cc hadj hinb hVc
      have hreachc : zero_reach s.model index cc :=
        Relation.ReflTransGen.tail hab ⟨hadj, higc, hgc⟩
      exact Or.inr ⟨hmem, hfresh cc hreachc⟩
  refine ⟨s', rfl, hfr.flags_eq, hfr.state_eq, ?_⟩
  intro x
  rw [S1 x]
  constructor
  · rintro (hx | ⟨⟨a, ha, hrf⟩, hfl⟩)
    · exact Or.inl hx
    · refine Or.inr ⟨⟨a, ?_, ?_⟩, hfl⟩
      · rcases ha with rfl | ⟨haS, hnaS⟩
        · exact Relation.ReflTransGen.refl
        · exact hreach_of a (S2 a haS hnaS)
      · rcases hrf with rfl | ⟨hadj, hinb⟩
        · exact Or.inl rfl
        · refine Or.inr ⟨hadj, ?_⟩
          rw [hw, hh]
          exact inb_iff_in_grid.mp hinb
  · rintro (hx | ⟨⟨a, ha, hrf⟩, hfl⟩)
    · exact Or.inl hx
    · refine Or.inr ⟨⟨a, hprocessed a ha, ?_⟩, hfl⟩
      rcases hrf with rfl | ⟨hadj, hig'⟩
      · exact Or.inl rfl
      · refine Or.inr ⟨hadj, ?_⟩
        apply inb_iff_in_grid.mpr
        rw [← hw, ← hh]
        exact hig'

/-- Example state: a 3×3 board with its single mine at (0,0), as in the
spec's §8 example; cells (1,0), (0,1), (1,1) hold 1, all others 0. -/
def exS0 : Ctrl :=
  (Controller.init 3 3 1 [((0 : Int), (0 : Int))]).getD
    { width := 0, height := 0, num_mines := 0, model := default_model, trace := [] }

theorem flood_fill_region_witness :
    (WF exS0 ∧ in_grid exS0.model.width exS0.model.height (2, 2) ∧
      exS0.model.grid (2, 2) = Cell.count 0) ∧
    (∃ s', Controller.reveal_zeroes (exS0.width * exS0.height + 1) exS0 (2, 2) = some s' ∧
      s'.model.cells_flagged = exS0.model.cells_flagged ∧
      s'.model.game_state = exS0.model.game_state ∧
      (∀ x, x ∈ s'.model.cells_revealed ↔ x ∈ exS0.model.cells_revealed ∨
        ((∃ a, zero_reach exS0.model (2, 2) a ∧
          (x = a ∨ (x ∈ get_adjacent a ∧ in_grid exS0.model.width exS0.model.height x))) ∧
          x ∉ exS0.model.cells_flagged))) :=
  ⟨⟨⟨rfl, rfl, rfl⟩, by decide, by decide⟩,
    flood_fill_region exS0 (2, 2) ⟨rfl, rfl, rfl⟩ (by decide) (by decide)
      (fun c _ => Finset.not_mem_empty c)⟩

/-- C2 counterexample: during the flood fill from (2,2) on the 3×3 board
with a mine at (0,0), the coordinate (2,2) is notified (at least) twice —
once when it is revealed, and again when its neighbour (2,1) is
flood-filled and re-reveals all of its neighbours. -/
theorem flood_fill_notifies_more_than_once :
    2 ≤ ((Controller.reveal_zeroes (exS0.width * exS0.height + 1) exS0 (2, 2)).map
      (fun s => s.trace.countP
        (fun e => e == Event.revealCell (2, 2) (Cell.count 0)))).getD 0 := by
  decide

/-! ### Reveal of a flagged cell (C7) -/

/-- C7.  Revealing a flagged coordinate is a no-op: the controller returns
with the state — revealed set, flagged set, status and notification trace —
untouched. -/
theorem reveal_flagged_is_noop (s : Ctrl) (index : Coord) (v : Cell)
    (hv : Model.get_cell_value s.model index = some v)
    (hf : index ∈ s.model.cells_flagged) :
    Controller.reveal_decision s index = some s := by
  unfold Controller.reveal_decision
  rw [hv]
  simp only [if_pos hf]

/-- A state with cell (1,1) flagged, obtained from `exS0` by one flag toggle. -/
def exFlagged : Ctrl := Controller.update_flagged_cell exS0 ((1 : Int), (1 : Int))

theorem reveal_flagged_is_noop_witness :
    (Model.get_cell_value exFlagged.model ((1 : Int), (1 : Int)) = some (Cell.count 1) ∧
      ((1 : Int), (1 : Int)) ∈ exFlagged.model.cells_flagged) ∧
    Controller.reveal_decision exFlagged ((1 : Int), (1 : Int)) = some exFlagged :=
  ⟨⟨by decide, by decide⟩,
    reveal_flagged_is_noop exFlagged ((1 : Int), (1 : Int)) (Cell.count 1) (by decide) (by decide)⟩

/-! ### Construction failure semantics (C9) -/

/-- C9 (amended).  Construction fails — with the `ValueError` that
`random.sample` raises, there is no `InvalidConfiguration` error — exactly
when the requested number of mines exceeds the number of cells `W*H`; the
same condition governs whether the controller (and hence the game) starts.
In particular `M = W*H` succeeds. -/
theorem construction_fails_iff_mines_exceed_cells (W H M : Nat) (chosen : List Coord) :
    ((Model.init W H M chosen).isSome ↔ M ≤ W * H) ∧
    ((Controller.init W H M chosen).isSome ↔ M ≤ W * H) := by
  refine ⟨model_init_isSome_iff, ?_⟩
  unfold Controller.init
  rcases h : Model.init W H M chosen with _ | m
  · have := @model_init_isSome_iff W H M chosen
    rw [h] at this
    simpa using this
  · have := @model_init_isSome_iff W H M chosen
    rw [h] at this
    simpa using this

/-- C9 counterexample: a 1×1 board with 1 mine constructs successfully (no
failure of any kind), with its single cell holding the mine. -/
theorem one_by_one_board_constructs :
    (Model.init 1 1 1 [((0 : Int), (0 : Int))]).isSome = true ∧
    (Model.init 1 1 1 [((0 : Int), (0 : Int))]).map (fun m => m.grid (0, 0)) =
      some Cell.mine := by
  decide

/-! ### Out-of-bounds semantics (C10) -/

/-- C10 (amended).  A coordinate outside `[-W, W) × [-H, H)` makes the cell
lookup raise `IndexError` (modelled as `none`), and the error propagates out
of `reveal_decision`; there is no `OutOfBounds` error kind.  (Out-of-bounds
coordinates with negative components inside `[-W, 0) × [-H, 0)` instead wrap
around and are processed as if in bounds — see
`negative_coordinate_wraps_and_mutates`.) -/
theorem out_of_bounds_lookup_and_reveal_raise (s : Ctrl) (index : Coord)
    (h : index.1 < -(s.model.width : Int) ∨ (s.model.width : Int) ≤ index.1 ∨
         index.2 < -(s.model.height : Int) ∨ (s.model.height : Int) ≤ index.2) :
    Model.get_cell_value s.model index = none ∧
    Controller.reveal_decision s index = none := by
  have hnone : Model.get_cell_value s.model index = none := get_cell_value_eq_none_iff.mpr h
  refine ⟨hnone, ?_⟩
  unfold Controller.reveal_decision
  rw [hnone]

theorem out_of_bounds_lookup_and_reveal_raise_witness :
    (((5 : Int), (0 : Int)).1 < -(exS0.model.width : Int) ∨
      (exS0.model.width : Int) ≤ ((5 : Int), (0 : Int)).1 ∨
      ((5 : Int), (0 : Int)).2 < -(exS0.model.height : Int) ∨
      (exS0.model.height : Int) ≤ ((5 : Int), (0 : Int)).2) ∧
    (Model.get_cell_value exS0.model ((5 : Int), (0 : Int)) = none ∧
      Controller.reveal_decision exS0 ((5 : Int), (0 : Int)) = none) :=
  ⟨by decide, out_of_bounds_lookup_and_reveal_raise exS0 ((5 : Int), (0 : Int)) (by decide)⟩

/-- C10 counterexample: the out-of-bounds coordinate (-2, 0) does not fail —
Python's negative indexing wraps it to (1, 0), the lookup returns that
cell's value, a reveal silently adds the out-of-bounds coordinate to the
revealed set, and a flag toggle at a far out-of-bounds coordinate silently
mutates the flagged set. -/
theorem negative_coordinate_wraps_and_mutates :
    Model.get_cell_value exS0.model ((-2 : Int), (0 : Int)) = some (Cell.count 1) ∧
    ((-2 : Int), (0 : Int)) ∉ exS0.model.cells_revealed ∧
    (Controller.reveal_decision exS0 ((-2 : Int), (0 : Int))).map
      (fun s => decide (((-2 : Int), (0 : Int)) ∈ s.model.cells_revealed)) = some true ∧
    (Controller.update_flagged_cell exS0 ((99 : Int), (99 : Int))).model.cells_flagged ≠
      exS0.model.cells_flagged := by
  decide

/-! ### Flag toggling a revealed cell (C8) -/

/-- C8 (amended).  Toggling the flag of a revealed coordinate leaves
the model — in particular the flagged set — unchanged and emits no flag or
unflag notification, but `update_mines` still runs: a mines-remaining
counter notification is emitted whenever `M - |flagged|` is nonnegative. -/
theorem toggle_flag_revealed_keeps_model_but_notifies_counter (s : Ctrl) (index : Coord)
    (h : index ∈ s.model.cells_revealed) :
    (Controller.update_flagged_cell s index).model = s.model ∧
    (Controller.update_flagged_cell s index).trace =
      s.trace ++ (if 0 ≤ (s.num_mines : Int) - (s.model.cells_flagged.card : Int)
          then [Event.updateMinesLeft ((s.num_mines : Int) - s.model.cells_flagged.card)]
          else []) := by
  unfold Controller.update_flagged_cell
  rw [if_neg (by intro hcon; exact hcon.1 h), if_neg (by intro hcon; exact hcon.1 h)]
  unfold Controller.update_mines
  dsimp only
  split_ifs with hm
  · exact ⟨rfl, rfl⟩
  · exact ⟨rfl, by simp⟩

/-- A state with cell (1,1) revealed, obtained from `exS0` by one reveal. -/
def exRevealed : Ctrl := (Controller.reveal_decision exS0 ((1 : Int), (1 : Int))).getD exS0

theorem toggle_flag_revealed_keeps_model_but_notifies_counter_witness :
    ((1 : Int), (1 : Int)) ∈ exRevealed.model.cells_revealed ∧
    ((Controller.update_flagged_cell exRevealed ((1 : Int), (1 : Int))).model =
        exRevealed.model ∧
      (Controller.update_flagged_cell exRevealed ((1 : Int), (1 : Int))).trace =
        exRevealed.trace ++
          (if 0 ≤ (exRevealed.num_mines : Int) - (exRevealed.model.cells_flagged.card : Int)
            then [Event.updateMinesLeft
              ((exRevealed.num_mines : Int) - exRevealed.model.cells_flagged.card)]
            else [])) :=
  ⟨by decide,
    toggle_flag_revealed_keeps_model_but_notifies_counter exRevealed ((1 : Int), (1 : Int))
      (by decide)⟩

/-- C8 counterexample: toggling the flag of the revealed cell (1,1) emits a
mines-remaining notification — the trace grows — contradicting the claim
that no notification of any kind is emitted. -/
theorem toggle_flag_revealed_emits_counter :
    ((1 : Int), (1 : Int)) ∈ exRevealed.model.cells_revealed ∧
    (Controller.update_flagged_cell exRevealed ((1 : Int), (1 : Int))).model.cells_flagged =
      exRevealed.model.cells_flagged ∧
    (Controller.update_flagged_cell exRevealed ((1 : Int), (1 : Int))).trace ≠
      exRevealed.trace := by
  decide

/-! ### Terminality of Won and Lost (C5, C6) -/

theorem win_status (s : Ctrl) : (Controller.win s).model.game_state = GameState.win := rfl

theorem loss_status (s : Ctrl) : (Controller.loss s).model.game_state = GameState.loss := rfl

theorem update_flagged_cell_status (s : Ctrl) (index : Coord) :
    (Controller.update_flagged_cell s index).model.game_state = s.model.game_state := by
  unfold Controller.update_flagged_cell Controller.update_mines
  dsimp only
  split_ifs <;> rfl

/-- Where `reveal_decision` can take the status: it is unchanged, or it
becomes Won from a non-Lost state, or it becomes Lost from a non-Won
state. -/
theorem reveal_decision_status (s : Ctrl) (index : Coord) (s' : Ctrl)
    (h : Controller.reveal_decision s index = some s') :
    s'.model.game_state = s.model.game_state ∨
    (s'.model.game_state = GameState.win ∧ s.model.game_state ≠ GameState.loss) ∨
    (s'.model.game_state = GameState.loss ∧ s.model.game_state ≠ GameState.win) := by
  unfold Controller.reveal_decision at h
  rcases hv : Model.get_cell_value s.model index with _ | v
  · rw [hv] at h
    exact Option.noConfusion h
  rw [hv] at h
  dsimp only at h
  split_ifs at h with hflag h18 hmine
  · cases Option.some.inj h
    exact Or.inl rfl
  · dsimp only at h
    have hst : (Controller.reveal_cell s index v).model.game_state = s.model.game_state :=
      reveal_cell_state s index v
    split_ifs at h with hwin
    · cases Option.some.inj h
      refine Or.inr (Or.inl ⟨win_status _, ?_⟩)
      rw [← hst]
      exact hwin.2
    · cases Option.some.inj h
      exact Or.inl hst
  · dsimp only at h
    split_ifs at h with hwin
    · exact absurd (loss_status s) hwin.2
    · cases Option.some.inj h
      exact Or.inr (Or.inr ⟨loss_status s, hmine.2⟩)
  · rcases hz : Controller.reveal_zeroes (s.width * s.height + 1) s index with _ | t
    · rw [hz] at h
      exact Option.noConfusion h
    rw [hz] at h
    dsimp only at h
    have hst : t.model.game_state = s.model.game_state :=
      (reveal_zeroes_frame _ s index t hz).state_eq
    split_ifs at h with hwin
    · cases Option.some.inj h
      refine Or.inr (Or.inl ⟨win_status _, ?_⟩)
      rw [← hst]
      exact hwin.2
    · cases Option.some.inj h
      exact Or.inl hst

/-- C5 (amended).  Won and Lost are terminal as statuses: no reveal or flag
operation leaves them (a Won status stays Won, a Lost status stays Lost).
State outside the status is not frozen, however: reveals and flags after the
game has ended still mutate the revealed/flagged sets and still emit
notifications (see `lost_state_not_fully_terminal`). -/
theorem terminal_status_never_left (s : Ctrl) (index : Coord) :
    (∀ s', Controller.reveal_decision s index = some s' →
      ((s.model.game_state = GameState.win → s'.model.game_state = GameState.win) ∧
       (s.model.game_state = GameState.loss → s'.model.game_state = GameState.loss))) ∧
    ((s.model.game_state = GameState.win →
        (Controller.update_flagged_cell s index).model.game_state = GameState.win) ∧
     (s.model.game_state = GameState.loss →
        (Controller.update_flagged_cell s index).model.game_state = GameState.loss)) := by
  constructor
  · intro s' h
    rcases reveal_decision_status s index s' h with hst | ⟨hw, hnl⟩ | ⟨hl, hnw⟩
    · constructor
      · intro hwin
        rw [hst, hwin]
      · intro hloss
        rw [hst, hloss]
    · constructor
      · intro _
        exact hw
      · intro hloss
        exact absurd hloss hnl
    · constructor
      · intro hwin
        exact absurd hwin hnw
      · intro _
        exact hl
  · constructor
    · intro hwin
      rw [update_flagged_cell_status, hwin]
    · intro hloss
      rw [update_flagged_cell_status, hloss]

/-- C6.  A reveal — any reveal, including one targeting a mine — in a state
whose status is Won leaves the status Won; a Won state is never overwritten
by a Lost transition. -/
theorem win_never_overwritten (s : Ctrl) (index : Coord) (s' : Ctrl)
    (hwin : s.model.game_state = GameState.win)
    (h : Controller.reveal_decision s index = some s') :
    s'.model.game_state = GameState.win := by
  rcases reveal_decision_status s index s' h with hst | ⟨hw, _⟩ | ⟨_, hnw⟩
  · rw [hst, hwin]
  · exact hw
  · exact absurd hwin hnw

/-- A lost state: the mine at (0,0) was revealed on `exS0`. -/
def exLost : Ctrl := (Controller.reveal_decision exS0 ((0 : Int), (0 : Int))).getD exS0

/-- A won state: revealing (2,2) on `exS0` flood-fills all 8 safe cells. -/
def exWon : Ctrl := (Controller.reveal_decision exS0 ((2 : Int), (2 : Int))).getD exS0

/-- The state after revealing the still-unrevealed safe cell (1,0) in the
lost state `exLost`. -/
def exAfterLost : Ctrl := (Controller.reveal_decision exLost ((1 : Int), (0 : Int))).getD exLost

/-- The state after revealing the mine (0,0) in the won state `exWon`. -/
def exWonAfterMine : Ctrl := (Controller.reveal_decision exWon ((0 : Int), (0 : Int))).getD exWon

theorem terminal_status_never_left_witness :
    exLost.model.game_state = GameState.loss ∧
    exAfterLost.model.game_state = GameState.loss ∧
    (Controller.update_flagged_cell exLost ((2 : Int), (2 : Int))).model.game_state =
      GameState.loss :=
  ⟨by decide,
    ((terminal_status_never_left exLost ((1 : Int), (0 : Int))).1 exAfterLost rfl).2 (by decide),
    (terminal_status_never_left exLost ((2 : Int), (2 : Int))).2.2 (by decide)⟩

/-- C5 counterexample: Lost is not terminal for the board-visible state.  In
the lost state, a flag toggle still mutates the flagged set and emits
notifications, and revealing another cell still mutates the revealed set
and emits further notifications beyond the single full-reveal broadcast. -/
theorem lost_state_not_fully_terminal :
    exLost.model.game_state = GameState.loss ∧
    (Controller.update_flagged_cell exLost ((2 : Int), (2 : Int))).model.cells_flagged ≠
      exLost.model.cells_flagged ∧
    (Controller.update_flagged_cell exLost ((2 : Int), (2 : Int))).trace ≠ exLost.trace ∧
    (Controller.reveal_decision exLost ((1 : Int), (0 : Int))).map
      (fun s => decide (s.model.cells_revealed = exLost.model.cells_revealed
        ∧ s.trace = exLost.trace)) = some false := by
  decide

theorem win_never_overwritten_witness :
    exWon.model.game_state = GameState.win ∧
    exS0.model.grid ((0 : Int), (0 : Int)) = Cell.mine ∧
    exWonAfterMine.model.game_state = GameState.win :=
  ⟨by decide, by decide,
    win_never_overwritten exWon ((0 : Int), (0 : Int)) exWonAfterMine (by decide) rfl⟩

/-! ### The loss broadcast (C4) -/

/-- Does event `e` reveal coordinate `c`? -/
def coord_of_reveal (c : Coord) (e : Event) : Bool :=
  match e with
  | Event.revealCell d _ => decide (d = c)
  | _ => false

theorem flatMap_congr {α β : Type} {l : List α} {f g : α → List β}
    (h : ∀ a ∈ l, f a = g a) : l.flatMap f = l.flatMap g := by
  induction l with
  | nil => rfl
  | cons a l ih =>
    rw [List.flatMap_cons, List.flatMap_cons, h a (List.mem_cons_self a l),
      ih (fun b hb => h b (List.mem_cons_of_mem a hb))]

theorem flatMap_singleton_eq_map {α β : Type} (l : List α) (f : α → β) :
    (l.flatMap fun a => [f a]) = l.map f := by
  induction l with
  | nil => rfl
  | cons a l ih => rw [List.flatMap_cons, List.map_cons, ih]; rfl

theorem countP_flatMap_range {β : Type} (p : β → Bool) (g : Nat → List β) :
    ∀ n, ((List.range n).flatMap g).countP p =
      ((List.range n).map fun i => (g i).countP p).sum := by
  intro n
  induction n with
  | zero => rfl
  | succ k ih =>
    rw [List.range_succ, List.flatMap_append, List.countP_append, ih, List.map_append,
      List.sum_append]
    simp

theorem sum_map_range_zero (g : Nat → Nat) :
    ∀ n, (∀ i, i < n → g i = 0) → ((List.range n).map g).sum = 0 := by
  intro n
  induction n with
  | zero => intro _; rfl
  | succ k ih =>
    intro h
    rw [List.range_succ, List.map_append, List.sum_append,
      ih (fun i hi => h i (Nat.lt_succ_of_lt hi))]
    simp [h k (Nat.lt_succ_self k)]

theorem sum_map_range_one (g : Nat → Nat) (k : Nat) :
    ∀ n, k < n → g k = 1 → (∀ i, i < n → i ≠ k → g i = 0) →
      ((List.range n).map g).sum = 1 := by
  intro n
  induction n with
  | zero => intro h; exact absurd h (Nat.not_lt_zero k)
  | succ m ih =>
    intro hk hgk hz
    rw [List.range_succ, List.map_append, List.sum_append]
    rcases Nat.lt_succ_iff_lt_or_eq.mp hk with hk' | rfl
    · rw [ih hk' hgk (fun i hi hne => hz i (Nat.lt_succ_of_lt hi) hne)]
      simp [hz m (Nat.lt_succ_self m) (by omega)]
    · rw [sum_map_range_zero g k (fun i hi => hz i (Nat.lt_succ_of_lt hi) (by omega))]
      simp [hgk]

theorem countP_range_zero (p : Nat → Bool) :
    ∀ n, (∀ i, i < n → p i = false) → (List.range n).countP p = 0 := by
  intro n
  induction n with
  | zero => intro _; rfl
  | succ k ih =>
    intro h
    rw [List.range_succ, List.countP_append, ih (fun i hi => h i (Nat.lt_succ_of_lt hi))]
    simp [h k (Nat.lt_succ_self k)]

theorem countP_range_one (p : Nat → Bool) (k : Nat) :
    ∀ n, k < n → p k = true → (∀ i, i < n → i ≠ k → p i = false) →
      (List.range n).countP p = 1 := by
  intro n
  induction n with
  | zero => intro h; exact absurd h (Nat.not_lt_zero k)
  | succ m ih =>
    intro hk hpk hz
    rw [List.range_succ, List.countP_append]
    rcases Nat.lt_succ_iff_lt_or_eq.mp hk with hk' | rfl
    · rw [ih hk' hpk (fun i hi hne => hz i (Nat.lt_succ_of_lt hi) hne)]
      simp [hz m (Nat.lt_succ_self m) (by omega)]
    · rw [countP_range_zero p k (fun i hi => hz i (Nat.lt_succ_of_lt hi) (by omega))]
      simp [hpk]

theorem loss_events_eq (s : Ctrl) (hw : s.model.width = s.width)
    (hh : s.model.height = s.height) :
    Controller.loss_events s =
      (List.range s.height).flatMap fun (row : Nat) =>
        (List.range s.width).map fun (col : Nat) =>
          Event.revealCell ((col : Int), (row : Int))
            (s.model.grid ((col : Int), (row : Int))) := by
  unfold Controller.loss_events
  apply flatMap_congr
  intro row hrow
  rw [List.mem_range] at hrow
  rw [← flatMap_singleton_eq_map]
  apply flatMap_congr
  intro col hcol
  rw [List.mem_range] at hcol
  have hig : in_grid s.model.width s.model.height ((col : Int), (row : Int)) := by
    refine ⟨by omega, ?_, by omega, ?_⟩
    · rw [hw]
      omega
    · rw [hh]
      omega
  rw [get_cell_value_of_in_grid hig]

theorem loss_events_spec (s : Ctrl) (hw : s.model.width = s.width)
    (hh : s.model.height = s.height) :
    (∀ e ∈ Controller.loss_events s, ∃ c, in_grid s.model.width s.model.height c ∧
        e = Event.revealCell c (s.model.grid c)) ∧
    (∀ c, in_grid s.model.width s.model.height c →
        (Controller.loss_events s).countP (coord_of_reveal c) = 1) := by
  rw [loss_events_eq s hw hh]
  constructor
  · intro e he
    rw [mem_range_flatMap_map] at he
    obtain ⟨row, hrow, col, hcol, rfl⟩ := he
    refine ⟨((col : Int), (row : Int)), ?_, rfl⟩
    refine ⟨by omega, ?_, by omega, ?_⟩
    · rw [hw]
      omega
    · rw [hh]
      omega
  · rintro ⟨x, y⟩ ⟨hx0, hxW, hy0, hyH⟩
    rw [hw] at hxW
    rw [hh] at hyH
    rw [countP_flatMap_range]
    apply sum_map_range_one _ y.toNat
    · omega
    · rw [List.countP_map]
      apply countP_range_one _ x.toNat
      · omega
      · simp only [Function.comp, coord_of_reveal, decide_eq_true_eq, Prod.mk.injEq]
        constructor <;> omega
      · intro i hi hne
        simp only [Function.comp, coord_of_reveal, decide_eq_false_iff_not, Prod.mk.injEq,
          not_and]
        intro h1
        omega
    · intro row hrow hne
      rw [List.countP_map]
      apply countP_range_zero
      intro col hcol
      simp only [Function.comp, coord_of_reveal, decide_eq_false_iff_not, Prod.mk.injEq,
        not_and]
      intro h1
      omega

theorem loss_events_congr {s t : Ctrl} (hw : t.width = s.width) (hh : t.height = s.height)
    (hl : Model.get_cell_value t.model = Model.get_cell_value s.model) :
    Controller.loss_events t = Controller.loss_events s := by
  unfold Controller.loss_events
  rw [hw, hh, hl]

/-- Revealing a (non-flagged) mine while not Won runs `Controller.loss` and
nothing else: the win check afterwards cannot fire. -/
theorem reveal_decision_mine (s : Ctrl) (index : Coord)
    (hv : Model.get_cell_value s.model index = some Cell.mine)
    (hf : index ∉ s.model.cells_flagged)
    (hnw : s.model.game_state ≠ GameState.win) :
    Controller.reveal_decision s index = some (Controller.loss s) := by
  unfold Controller.reveal_decision
  rw [hv]
  dsimp only
  rw [if_neg hf, if_neg (by simp [in_range_one_eight]), if_pos ⟨rfl, hnw⟩]
  dsimp only
  rw [if_neg (by
    rintro ⟨-, hcon⟩
    exact hcon (loss_status s))]

/-- C4.  A reveal targeting a (non-flagged) mine while the status is not Won
transitions to Lost, notifies the loss, and then broadcasts the content of
every in-bounds coordinate exactly once per cell, directly to the view —
regardless of each cell's prior revealed or flagged state, which the
broadcast never consults (the revealed and flagged sets are untouched). -/
theorem mine_reveal_loses_and_broadcasts (s : Ctrl) (index : Coord)
    (hw : s.model.width = s.width) (hh : s.model.height = s.height)
    (hv : Model.get_cell_value s.model index = some Cell.mine)
    (hf : index ∉ s.model.cells_flagged)
    (hnw : s.model.game_state ≠ GameState.win) :
    ∃ s', Controller.reveal_decision s index = some s' ∧
      s'.model.game_state = GameState.loss ∧
      s'.model.cells_revealed = s.model.cells_revealed ∧
      s'.model.cells_flagged = s.model.cells_flagged ∧
      ∃ tail, s'.trace = s.trace ++ [Event.displayLoss] ++ tail ∧
        (∀ e ∈ tail, ∃ c, in_grid s.model.width s.model.height c ∧
          e = Event.revealCell c (s.model.grid c)) ∧
        (∀ c, in_grid s.model.width s.model.height c →
          tail.countP (coord_of_reveal c) = 1) := by
  refine ⟨Controller.loss s, reveal_decision_mine s index hv hf hnw, loss_status s, rfl, rfl, ?_⟩
  obtain ⟨hmem, hcount⟩ := loss_events_spec s hw hh
  refine ⟨Controller.loss_events s, ?_, hmem, hcount⟩
  show (s.trace ++ [Event.displayLoss]) ++ Controller.loss_events
      { s with model := { s.model with game_state := GameState.loss }
               trace := s.trace ++ [Event.displayLoss] } =
    s.trace ++ [Event.displayLoss] ++ Controller.loss_events s
  exact congrArg (fun l => s.trace ++ [Event.displayLoss] ++ l)
    (loss_events_congr rfl rfl (get_cell_value_congr rfl rfl rfl))

theorem mine_reveal_loses_and_broadcasts_witness :
    (Model.get_cell_value exS0.model ((0 : Int), (0 : Int)) = some Cell.mine ∧
      ((0 : Int), (0 : Int)) ∉ exS0.model.cells_flagged ∧
      exS0.model.game_state ≠ GameState.win) ∧
    (∃ s', Controller.reveal_decision exS0 ((0 : Int), (0 : Int)) = some s' ∧
      s'.model.game_state = GameState.loss ∧
      s'.model.cells_revealed = exS0.model.cells_revealed ∧
      s'.model.cells_flagged = exS0.model.cells_flagged ∧
      ∃ tail, s'.trace = exS0.trace ++ [Event.displayLoss] ++ tail ∧
        (∀ e ∈ tail, ∃ c, in_grid exS0.model.width exS0.model.height c ∧
          e = Event.revealCell c (exS0.model.grid c)) ∧
        (∀ c, in_grid exS0.model.width exS0.model.height c →
          tail.countP (coord_of_reveal c) = 1)) :=
  ⟨⟨by decide, by decide, by decide⟩,
    mine_reveal_loses_and_broadcasts exS0 ((0 : Int), (0 : Int)) rfl rfl
      (by decide) (by decide) (by decide)⟩

/-! ### The win condition (C3) -/

/-- The in-bounds non-mine cells of a board. -/
def safe_cells (W H : Nat) (G : Grid) : Finset Coord :=
  (bounds_finset W H).filter fun c => G c ≠ Cell.mine

/-- The invariant maintained by in-bounds non-mine reveals from a fresh
game: flags stay empty, only safe cells get revealed, the game is never
lost, and the status is Won exactly when every safe cell is revealed. -/
structure C3Inv (W H M : Nat) (G : Grid) (s : Ctrl) : Prop where
  w_eq : s.width = W
  h_eq : s.height = H
  nm_eq : s.num_mines = M
  mw_eq : s.model.width = W
  mh_eq : s.model.height = H
  grid_eq : s.model.grid = G
  flags_empty : s.model.cells_flagged = ∅
  rev_sub : s.model.cells_revealed ⊆ safe_cells W H G
  not_loss : s.model.game_state ≠ GameState.loss
  win_iff : s.model.game_state = GameState.win ↔
    s.model.cells_revealed.card = W * H - M

theorem c3_after_check (W H M : Nat) (G : Grid)
    (hsafe_card : (safe_cells W H G).card = W * H - M)
    (hM : M ≤ W * H)
    (s t : Ctrl) (hInv : C3Inv W H M G s)
    (hstate : t.model.game_state = s.model.game_state)
    (hflags : t.model.cells_flagged = ∅)
    (hgrid : t.model.grid = G) (hmw : t.model.width = W) (hmh : t.model.height = H)
    (htw : t.width = W) (hth : t.height = H) (htm : t.num_mines = M)
    (hsub : s.model.cells_revealed ⊆ t.model.cells_revealed)
    (hsafe : t.model.cells_revealed ⊆ safe_cells W H G) :
    ∃ s', (if (s.height : Int) * (s.width : Int) - (t.model.cells_revealed.card : Int)
            = (s.num_mines : Int) ∧ t.model.game_state ≠ GameState.loss
        then some (Controller.win t) else some t) = some s' ∧ C3Inv W H M G s' := by
  have hcard_le : t.model.cells_revealed.card ≤ W * H - M := by
    rw [← hsafe_card]
    exact Finset.card_le_card hsafe
  have hcast : (s.height : Int) * (s.width : Int) = ((W * H : Nat) : Int) := by
    rw [hInv.h_eq, hInv.w_eq]
    push_cast
    ring
  have hnl : t.model.game_state ≠ GameState.loss := by
    rw [hstate]
    exact hInv.not_loss
  by_cases hfull : t.model.cells_revealed.card = W * H - M
  · have hcond : (s.height : Int) * (s.width : Int) - (t.model.cells_revealed.card : Int)
        = (s.num_mines : Int) := by
      rw [hcast, hInv.nm_eq, hfull]
      omega
    rw [if_pos ⟨hcond, hnl⟩]
    refine ⟨Controller.win t, rfl, ?_⟩
    exact ⟨htw, hth, htm, hmw, hmh, hgrid, hflags, hsafe, by simp [Controller.win],
      by constructor <;> intro <;> simp [Controller.win, hfull]⟩
  · have hcond : ¬ ((s.height : Int) * (s.width : Int) - (t.model.cells_revealed.card : Int)
        = (s.num_mines : Int) ∧ t.model.game_state ≠ GameState.loss) := by
      rintro ⟨hc, -⟩
      rw [hcast, hInv.nm_eq] at hc
      have : t.model.cells_revealed.card ≤ W * H := le_trans hcard_le (Nat.sub_le _ _)
      omega
    rw [if_neg hcond]
    refine ⟨t, rfl, ⟨htw, hth, htm, hmw, hmh, hgrid, hflags, hsafe, hnl, ?_⟩⟩
    rw [hstate]
    constructor
    · intro hwin
      exfalso
      have hcards : s.model.cells_revealed.card = W * H - M := hInv.win_iff.mp hwin
      have hseq : s.model.cells_revealed = safe_cells W H G := by
        apply Finset.eq_of_subset_of_card_le hInv.rev_sub
        rw [hsafe_card, hcards]
      have hteq : t.model.cells_revealed = safe_cells W H G := by
        apply Finset.Subset.antisymm hsafe
        rw [← hseq]
        exact hsub
      rw [hteq, hsafe_card] at hfull
      exact hfull rfl
    · intro hcards
      exact absurd hcards hfull

theorem reveal_zeroes_total (s : Ctrl) (index : Coord)
    (h : (Model.get_cell_value s.model index).isSome) :
    (Controller.reveal_zeroes (s.width * s.height + 1) s index).isSome := by
  apply reveal_zeroes_isSome
  · calc (bounds_finset s.width s.height \ s.model.revealed_zeroes).card
        ≤ (bounds_finset s.width s.height).card := Finset.card_le_card Finset.sdiff_subset
      _ = s.width * s.height := bounds_finset_card _ _
      _ < s.width * s.height + 1 := Nat.lt_succ_self _
  · exact h

theorem c3_step (W H M : Nat) (G : Grid)
    (hsafe_card : (safe_cells W H G).card = W * H - M)
    (hM : M ≤ W * H)
    (hzero : ∀ c, in_grid W H c → G c = Cell.count 0 →
      ∀ d ∈ get_adjacent c, in_grid W H d → G d ≠ Cell.mine)
    (hle8 : ∀ c, in_grid W H c → G c ≠ Cell.mine → ∃ n, n ≤ 8 ∧ G c = Cell.count n)
    (s : Ctrl) (hInv : C3Inv W H M G s)
    (index : Coord) (hin : in_grid W H index) (hnm : G index ≠ Cell.mine) :
    ∃ s', Controller.reveal_decision s index = some s' ∧ C3Inv W H M G s' := by
  have hinm : in_grid s.model.width s.model.height index := by
    rw [hInv.mw_eq, hInv.mh_eq]
    exact hin
  have hlookup : Model.get_cell_value s.model index = some (G index) := by
    rw [get_cell_value_of_in_grid hinm, hInv.grid_eq]
  have hflag : index ∉ s.model.cells_flagged := by
    rw [hInv.flags_empty]
    exact Finset.not_mem_empty index
  have hsafe_mem : ∀ c, in_grid W H c → G c ≠ Cell.mine → c ∈ safe_cells W H G := by
    intro c hc hnc
    rw [safe_cells, Finset.mem_filter, bounds_finset_mem]
    exact ⟨hc, hnc⟩
  obtain ⟨n, hn8, hGn⟩ := hle8 index hin hnm
  by_cases hn0 : n = 0
  · subst hn0
    have hlookup0 : Model.get_cell_value s.model index = some (Cell.count 0) := by
      rw [hlookup, hGn]
    have hsome_rz : (Controller.reveal_zeroes (s.width * s.height + 1) s index).isSome :=
      reveal_zeroes_total s index (by rw [hlookup0]; rfl)
    rcases hz : Controller.reveal_zeroes (s.width * s.height + 1) s index with _ | t0
    · rw [hz] at hsome_rz
      exact absurd hsome_rz (by simp)
    have hred : Controller.reveal_decision s index =
        (if (s.height : Int) * (s.width : Int) - (t0.model.cells_revealed.card : Int)
            = (s.num_mines : Int) ∧ t0.model.game_state ≠ GameState.loss
          then some (Controller.win t0) else some t0) := by
      unfold Controller.reveal_decision
      rw [hlookup0]
      dsimp only
      rw [if_neg hflag, if_neg (by simp [in_range_one_eight]),
        if_neg (by rintro ⟨hcon, -⟩; exact Cell.noConfusion hcon), hz]
    have hfr : ZFrame s t0 := reveal_zeroes_frame _ s index t0 hz
    have hsome_all : ∀ d, inb s.width s.height d →
        (Model.get_cell_value s.model d).isSome := by
      intro d hd
      have : in_grid s.model.width s.model.height d := by
        rw [hInv.mw_eq, hInv.mh_eq, ← hInv.w_eq, ← hInv.h_eq]
        exact inb_iff_in_grid.mp hd
      rw [get_cell_value_of_in_grid this]
      rfl
    obtain ⟨S1, S2, S3⟩ := reveal_zeroes_spec hsome_all (s.width * s.height + 1) s index t0
      rfl rfl rfl hlookup0 hz
    have hzeroes : ∀ a, (a = index ∨ (a ∈ t0.model.revealed_zeroes ∧
        a ∉ s.model.revealed_zeroes)) → in_grid W H a ∧ G a = Cell.count 0 := by
      rintro a (rfl | ⟨haS, hnaS⟩)
      · exact ⟨hin, hGn⟩
      · rcases hfr.rz_new a haS with hold | ⟨hinb, hval⟩
        · exact absurd hold hnaS
        · have hig : in_grid W H a := by
            rw [← hInv.w_eq, ← hInv.h_eq]
            exact inb_iff_in_grid.mp hinb
          refine ⟨hig, ?_⟩
          have higm : in_grid s.model.width s.model.height a := by
            rw [hInv.mw_eq, hInv.mh_eq]
            exact hig
          rw [get_cell_value_of_in_grid higm, hInv.grid_eq] at hval
          exact Option.some.inj hval
    have hsafe_t0 : t0.model.cells_revealed ⊆ safe_cells W H G := by
      intro x hx
      rcases (S1 x).mp hx with hxs | ⟨⟨a, ha, hrf⟩, -⟩
      · exact hInv.rev_sub hxs
      · obtain ⟨higa, hGa⟩ := hzeroes a ha
        rcases hrf with rfl | ⟨hadj, hinbx⟩
        · exact hsafe_mem x higa (by rw [hGa]; exact fun hc => Cell.noConfusion hc)
        · have higx : in_grid W H x := by
            rw [← hInv.w_eq, ← hInv.h_eq]
            exact inb_iff_in_grid.mp hinbx
          exact hsafe_mem x higx (hzero a higa hGa x hadj higx)
    obtain ⟨s', hif, hinv'⟩ := c3_after_check W H M G hsafe_card hM s t0 hInv
      hfr.state_eq (by rw [hfr.flags_eq, hInv.flags_empty])
      (by rw [hfr.grid_eq, hInv.grid_eq]) (by rw [hfr.mwidth_eq, hInv.mw_eq])
      (by rw [hfr.mheight_eq, hInv.mh_eq]) (by rw [hfr.width_eq, hInv.w_eq])
      (by rw [hfr.height_eq, hInv.h_eq]) (by rw [hfr.nm_eq, hInv.nm_eq])
      hfr.rev_mono hsafe_t0
    refine ⟨s', ?_, hinv'⟩
    rw [hred]
    exact hif
  · have h18 : in_range_one_eight (G index) = true := by
      rw [hGn]
      simp only [in_range_one_eight, Bool.and_eq_true, decide_eq_true_eq]
      omega
    have hred : Controller.reveal_decision s index =
        (if (s.height : Int) * (s.width : Int) -
              (((Controller.reveal_cell s index (G index)).model.cells_revealed.card : Int))
            = (s.num_mines : Int) ∧
            (Controller.reveal_cell s index (G index)).model.game_state ≠ GameState.loss
          then some (Controller.win (Controller.reveal_cell s index (G index)))
          else some (Controller.reveal_cell s index (G index))) := by
      unfold Controller.reveal_decision
      rw [hlookup]
      dsimp only
      rw [if_neg hflag, if_pos h18]
    have hrev : (Controller.reveal_cell s index (G index)).model.cells_revealed =
        insert index s.model.cells_revealed := by
      rw [reveal_cell_rev, if_neg hflag]
    obtain ⟨s', hif, hinv'⟩ := c3_after_check W H M G hsafe_card hM s
      (Controller.reveal_cell s index (G index)) hInv
      (reveal_cell_state s index (G index))
      (by rw [reveal_cell_flags, hInv.flags_empty])
      (by rw [reveal_cell_grid, hInv.grid_eq])
      (by rw [reveal_cell_mwidth, hInv.mw_eq])
      (by rw [reveal_cell_mheight, hInv.mh_eq])
      (by rw [reveal_cell_width, hInv.w_eq])
      (by rw [reveal_cell_height, hInv.h_eq])
      (by rw [reveal_cell_num_mines, hInv.nm_eq])
      (by rw [hrev]; exact Finset.subset_insert index _)
      (by
        rw [hrev]
        rw [Finset.insert_subset_iff]
        exact ⟨hsafe_mem index hin hnm, hInv.rev_sub⟩)
    refine ⟨s', ?_, hinv'⟩
    rw [hred]
    exact hif

theorem controller_init_fields {W H M : Nat} {chosen : List Coord} {s0 : Ctrl}
    (h : Controller.init W H M chosen = some s0) :
    Model.init W H M chosen = some s0.model ∧ s0.width = W ∧ s0.height = H ∧
    s0.num_mines = M ∧ s0.trace = [] := by
  unfold Controller.init at h
  rcases hm : Model.init W H M chosen with _ | m
  · rw [hm] at h
    exact Option.noConfusion h
  · rw [hm] at h
    cases Option.some.inj h
    exact ⟨rfl, rfl, rfl, rfl, rfl⟩

/-- C3.  Starting from a fresh game on a constructed board and performing
any sequence of in-bounds reveals none of which targets a mine, every
reveal succeeds, the game is never Lost, and the final status is Won
exactly when the number of revealed cells equals `W*H - M` — independently
of the order of reveals, since every order satisfies this equivalence. -/
theorem win_iff_all_safe_cells_revealed (W H M : Nat) (chosen : List Coord) (s0 : Ctrl)
    (hM : M < W * H) (hnd : chosen.Nodup) (hlen : chosen.length = M)
    (hmem : ∀ c ∈ chosen, c ∈ mine_population W H)
    (hinit : Controller.init W H M chosen = some s0) :
    ∀ (cs : List Coord), (∀ c ∈ cs, in_grid W H c ∧ s0.model.grid c ≠ Cell.mine) →
      ∃ s', apply_reveals s0 cs = some s' ∧
        s'.model.game_state ≠ GameState.loss ∧
        (s'.model.game_state = GameState.win ↔
          s'.model.cells_revealed.card = W * H - M) := by
  obtain ⟨hminit, hw0, hh0, hn0, htr0⟩ := controller_init_fields hinit
  obtain ⟨hmw, hmh, hmn, hgrid, hrev0, hflags0, hrz0, hstate0⟩ := model_init_fields hminit
  have hmem' : ∀ c ∈ chosen, in_grid W H c := fun c hc => mine_population_mem.mp (hmem c hc)
  have hmine_card : ((bounds_finset W H).filter fun c => s0.model.grid c = Cell.mine).card
      = M := by
    rw [init_mine_filter hminit hmem', List.toFinset_card_of_nodup hnd, hlen]
  have hsafe_card : (safe_cells W H s0.model.grid).card = W * H - M := by
    have hsplit := @Finset.filter_card_add_filter_neg_card_eq_card Coord
      (bounds_finset W H) (fun c => s0.model.grid c = Cell.mine) _ _
    rw [bounds_finset_card, hmine_card] at hsplit
    have : (safe_cells W H s0.model.grid).card
        = ((bounds_finset W H).filter fun c => ¬ (s0.model.grid c = Cell.mine)).card := rfl
    rw [this]
    omega
  have hzero : ∀ c, in_grid W H c → s0.model.grid c = Cell.count 0 →
      ∀ d ∈ get_adjacent c, in_grid W H d → s0.model.grid d ≠ Cell.mine :=
    fun c hc h0 => init_zero_no_mine_neighbor hminit hc h0
  have hle8 : ∀ c, in_grid W H c → s0.model.grid c ≠ Cell.mine →
      ∃ n, n ≤ 8 ∧ s0.model.grid c = Cell.count n :=
    fun c hc hnc => init_count_le_eight hminit hc hnc
  have hInv0 : C3Inv W H M s0.model.grid s0 := by
    refine ⟨hw0, hh0, hn0, hmw, hmh, rfl, hflags0, ?_, ?_, ?_⟩
    · rw [hrev0]
      exact Finset.empty_subset _
    · rw [hstate0]
      exact fun hc => GameState.noConfusion hc
    · rw [hstate0, hrev0]
      constructor
      · intro hc
        exact absurd hc (fun hc => GameState.noConfusion hc)
      · intro hc
        rw [Finset.card_empty] at hc
        omega
  have main : ∀ (cs : List Coord) (s : Ctrl), C3Inv W H M s0.model.grid s →
      (∀ c ∈ cs, in_grid W H c ∧ s0.model.grid c ≠ Cell.mine) →
      ∃ s', apply_reveals s cs = some s' ∧ C3Inv W H M s0.model.grid s' := by
    intro cs
    induction cs with
    | nil => exact fun s hInv _ => ⟨s, rfl, hInv⟩
    | cons c cs ih =>
      intro s hInv hcs
      obtain ⟨hcin, hcnm⟩ := hcs c (List.mem_cons_self c cs)
      obtain ⟨t, ht, hinvt⟩ := c3_step W H M s0.model.grid hsafe_card (Nat.le_of_lt hM)
        hzero hle8 s hInv c hcin hcnm
      obtain ⟨s', hs', hinv'⟩ := ih t hinvt
        (fun d hd => hcs d (List.mem_cons_of_mem c hd))
      refine ⟨s', ?_, hinv'⟩
      unfold apply_reveals
      rw [ht]
      exact hs'
  intro cs hcs
  obtain ⟨s', hs', hinv'⟩ := main cs s0 hInv0 hcs
  exact ⟨s', hs', hinv'.not_loss, hinv'.win_iff⟩

theorem win_iff_all_safe_cells_revealed_witness :
    (1 < 3 * 3 ∧ Controller.init 3 3 1 [((0 : Int), (0 : Int))] = some exS0 ∧
      (∀ c ∈ [((2 : Int), (2 : Int))], in_grid 3 3 c ∧ exS0.model.grid c ≠ Cell.mine)) ∧
    (∃ s', apply_reveals exS0 [((2 : Int), (2 : Int))] = some s' ∧
      s'.model.game_state ≠ GameState.loss ∧
      (s'.model.game_state = GameState.win ↔
        s'.model.cells_revealed.card = 3 * 3 - 1)) :=
  ⟨⟨by decide, rfl, by decide⟩,
    win_iff_all_safe_cells_revealed 3 3 1 [((0 : Int), (0 : Int))] exS0
      (by decide) (by decide) (by decide) (by decide) rfl
      [((2 : Int), (2 : Int))] (by decide)⟩
